import Mathlib

deriving instance DecidableEq for Except

/-!
Shallow embedding of the crawl orchestration core of `src/crawler.js`.

JavaScript objects are mutable and shared by reference, so the embedding
uses an explicit heap: every `PageNode` object is a heap cell addressed by
a numeric id, and `children` holds a list of cell ids.  Assigning
`page.children = item.children` (line 152 of the source) therefore copies
the *list of ids*, exactly as the JS assignment copies the array
reference: the child objects themselves stay shared.

The external Page Fetcher (puppeteer navigation + in-page evaluation) is
modelled as a function `String → Option FetchResult`; `none` models a
navigation failure (a thrown error), which the orchestrator does not
catch.  A ghost `fetchLog` records each fresh fetch together with the
depth at which it happened; it affects nothing else.
-/

namespace Crawler

/-- One cookie as returned by the fetcher (`Network.getAllCookies`):
the name plus its remaining attributes, collapsed to one field. -/
structure Cookie where
  name : String
  value : String
deriving Repr, DecidableEq

/-- What one page navigation yields: `document.title`, the link list from
`collectAllSameOriginAnchorsDeep` (already same-origin filtered, own-URL
filtered and de-duplicated inside the page context), the iframe source
list from `findAllIframes`, and the visible cookies. -/
structure FetchResult where
  title : String
  links : List String
  iframeSources : List String
  cookies : List Cookie
deriving Repr, DecidableEq

/-- Entry of `crawledCookies`: the cookie with its added `firstFound` field
(line 184 of the source). -/
structure CookieRecord where
  name : String
  value : String
  firstFound : String
deriving Repr, DecidableEq

/-- Entry of `crawledIframes`: `{src, firstFound}` (lines 174-176). -/
structure IframeRecord where
  src : String
  firstFound : String
deriving Repr, DecidableEq

/-- One `PageNode` heap cell: `{url, title?, children?}`.  `title` and
`children` are absent (`none`) until assigned, as in the JS object
literals `{url}`. -/
structure NodeData where
  url : String
  title : Option String
  children : Option (List Nat)
deriving Repr, DecidableEq

/-- The run aborts either because the fetcher threw (navigation failure)
or because the step budget of the embedding ran out. -/
inductive CrawlErr where
  | nav (url : String)
  | fuel
deriving Repr, DecidableEq

/-- The mutable state of a run: the object heap, the allocation counter,
and the three process-lifetime registries `crawledPages`,
`crawledCookies`, `crawledIframes`, plus the ghost fetch log. -/
structure CrawlState where
  heap : List (Nat × NodeData)
  nextId : Nat
  pages : List (String × Nat)
  cookies : List (String × CookieRecord)
  iframes : List (String × IframeRecord)
  fetchLog : List (String × Nat)
deriving Repr, DecidableEq

/-- Association-list lookup used for all three registries. -/
def regLookup {α : Type} (m : List (String × α)) (k : String) : Option α :=
  (m.find? (fun p => p.1 == k)).map (·.2)

/-- Heap-list lookup: the cell stored under an id, if any. -/
def findEntry (h : List (Nat × NodeData)) (id : Nat) : Option NodeData :=
  (h.find? (fun p => p.1 == id)).map (·.2)

/-- Heap-list update: overwrite the cell stored under an id. -/
def setEntry (h : List (Nat × NodeData)) (id : Nat) (d : NodeData) :
    List (Nat × NodeData) :=
  h.map (fun p => if p.1 = id then (id, d) else p)

/-- Heap lookup: the cell stored under an id, if any. -/
def findNode (s : CrawlState) (id : Nat) : Option NodeData :=
  findEntry s.heap id

/-- Dereference a node id; a dangling id yields an inert default cell
(real runs never dereference a dangling id). -/
def lookupNode (s : CrawlState) (id : Nat) : NodeData :=
  (findNode s id).getD ⟨"", none, none⟩

/-- Overwrite the cell stored under an id (JS field assignment). -/
def setNode (s : CrawlState) (id : Nat) (d : NodeData) : CrawlState :=
  { s with heap := setEntry s.heap id d }

/-- Allocate one fresh stub object `{url}` per discovered link
(line 169: `anchors.map(url => ({url}))`).  Returns the new heap cells,
their ids in discovery order, and the next free id. -/
def allocKids : Nat → List String → List (Nat × NodeData) × List Nat × Nat
  | n, [] => ([], [], n)
  | n, u :: us =>
    let rest := allocKids (n + 1) us
    ((n, ⟨u, none, none⟩) :: rest.1, n :: rest.2.1, rest.2.2)

/-- Lines 172-179: for each iframe source, insert `{src, firstFound}` into
`crawledIframes` unless the source is already a key. -/
def insertIframes (pageUrl : String) (srcs : List String)
    (m : List (String × IframeRecord)) : List (String × IframeRecord) :=
  srcs.foldl
    (fun m src =>
      if (regLookup m src).isSome then m else m ++ [(src, ⟨src, pageUrl⟩)]) m

/-- Lines 182-187: for each cookie, insert it (with `firstFound` added)
into `crawledCookies` unless its name is already a key. -/
def insertCookies (pageUrl : String) (cs : List Cookie)
    (m : List (String × CookieRecord)) : List (String × CookieRecord) :=
  cs.foldl
    (fun m c =>
      if (regLookup m c.name).isSome then m
      else m ++ [(c.name, ⟨c.name, c.value, pageUrl⟩)]) m

/-- Lines 154-157: one step of the memoized branch's `forEach`: overwrite
the child's `title` with the registry entry's title when the child's url
is registered, and with `''` otherwise. -/
def backfillChild (s : CrawlState) (cid : Nat) : CrawlState :=
  let cd := lookupNode s cid
  let t := match regLookup s.pages cd.url with
    | some rid => (lookupNode s rid).title.getD ""
    | none => ""
  setNode s cid { cd with title := some t }

/-- The whole `page.children.forEach(...)` of the memoized branch. -/
def backfillTitles (s : CrawlState) (cs : List Nat) : CrawlState :=
  cs.foldl backfillChild s

/-- Lines 148-158, the memoized branch: assign the registry entry's
`title` and `children` (an array reference, hence a list of shared cell
ids) onto the node, then backfill the children's titles. -/
def memoStep (s : CrawlState) (pid itemId : Nat) : CrawlState :=
  let pd := lookupNode s pid
  let item := lookupNode s itemId
  let s1 := setNode s pid { pd with title := item.title, children := item.children }
  backfillTitles s1 (item.children.getD [])

/-- Ghost instrumentation: record that the fetcher was invoked for a url
at a given depth. -/
def logFetch (s : CrawlState) (u : String) (depth : Nat) : CrawlState :=
  { s with fetchLog := s.fetchLog ++ [(u, depth)] }

/-- Line 166: the orchestrator-side filter `anchors.filter(a => a !== URL)`
removing the seed URL from the fetched link list. -/
def freshAnchors (seed : String) (res : FetchResult) : List String :=
  res.links.filter (fun a => !(a == seed))

/-- The heap cells of the freshly allocated child stubs. -/
def freshCells (s : CrawlState) (seed : String) (res : FetchResult) :
    List (Nat × NodeData) :=
  (allocKids s.nextId (freshAnchors seed res)).1

/-- The ids of the freshly allocated child stubs, in discovery order. -/
def freshKids (s : CrawlState) (seed : String) (res : FetchResult) : List Nat :=
  (allocKids s.nextId (freshAnchors seed res)).2.1

/-- The allocation counter after allocating the child stubs. -/
def freshNext (s : CrawlState) (seed : String) (res : FetchResult) : Nat :=
  (allocKids s.nextId (freshAnchors seed res)).2.2

/-- Lines 160-189, the fresh-fetch branch after a successful navigation:
filter the seed out of the link list (line 166), allocate the child
stubs, set `title`/`children` on the node, feed the iframe and cookie
registries, and insert the node object itself into `crawledPages`. -/
def freshStep (seed : String) (s : CrawlState) (pid : Nat) (res : FetchResult) :
    CrawlState :=
  let pd := lookupNode s pid
  let s1 : CrawlState :=
    { s with heap := s.heap ++ freshCells s seed res, nextId := freshNext s seed res }
  let s2 := setNode s1 pid ⟨pd.url, some res.title, some (freshKids s seed res)⟩
  { s2 with
    iframes := insertIframes pd.url res.iframeSources s.iframes,
    cookies := insertCookies pd.url res.cookies s.cookies,
    pages := s.pages ++ [(pd.url, pid)] }

/-- Lines 195-197: sequentially crawl every child, aborting on the first
error; `f` is the recursive call at depth+1. -/
def goKids (f : Nat → CrawlState → Except CrawlErr CrawlState) :
    List Nat → CrawlState → Except CrawlErr CrawlState
  | [], s => .ok s
  | k :: ks, s =>
    match f k s with
    | .error e => .error e
    | .ok s1 => goKids f ks s1

/-- One unfolding of `crawl(browser, page, depth)` (lines 142-198), with
the recursive call abstracted as `recur`.  Order of the branches is the
source's: depth cutoff, memoization check, fresh fetch, recursion over
the children (reached only from the fresh branch). -/
def crawlAux (fetch : String → Option FetchResult) (seed : String) (maxDepth : Nat)
    (recur : Nat → Nat → CrawlState → Except CrawlErr CrawlState)
    (pid depth : Nat) (s : CrawlState) : Except CrawlErr CrawlState :=
  if depth > maxDepth then .ok s
  else
    let pd := lookupNode s pid
    match regLookup s.pages pd.url with
    | some itemId => .ok (memoStep s pid itemId)
    | none =>
      match fetch pd.url with
      | none => .error (.nav pd.url)
      | some res =>
        let s1 := logFetch s pd.url depth
        let s2 := freshStep seed s1 pid res
        goKids (fun k t => recur k (depth + 1) t)
          ((lookupNode s2 pid).children.getD []) s2

/-- `crawl` itself.  The extra fuel argument bounds the recursion depth of
the embedding; `crawl` recurses only at depth+1 and stops past
`maxDepth`, so fuel `maxDepth + 2` is always sufficient (theorem
`crawlF_total`). -/
def crawlF (fetch : String → Option FetchResult) (seed : String) (maxDepth : Nat) :
    Nat → Nat → Nat → CrawlState → Except CrawlErr CrawlState
  | 0, _, _, _ => .error .fuel
  | fuel + 1, pid, depth, s =>
    crawlAux fetch seed maxDepth (crawlF fetch seed maxDepth fuel) pid depth s

/-- Line 207: the root object `{url: URL}` is the sole initial heap cell;
all registries start empty. -/
def initState (seed : String) : CrawlState :=
  { heap := [(0, ⟨seed, none, none⟩)]
    nextId := 1
    pages := []
    cookies := []
    iframes := []
    fetchLog := [] }

/-- Line 208: a whole run, `await crawl(browser, root)` at depth 0. -/
def runCrawl (fetch : String → Option FetchResult) (seed : String) (maxDepth : Nat) :
    Except CrawlErr CrawlState :=
  crawlF fetch seed maxDepth (maxDepth + 2) 0 0 (initState seed)

/-- The ids stored in a node's `children` array (empty when absent). -/
def childIds (s : CrawlState) (id : Nat) : List Nat :=
  (lookupNode s id).children.getD []

/-- The node objects at a given depth of the tree rooted at `root`,
left to right. -/
def atDepth (s : CrawlState) (root : Nat) : Nat → List Nat
  | 0 => [root]
  | d + 1 => ((atDepth s root d).map (childIds s)).foldr (· ++ ·) []

/-- Whether the visit of page `u` observes a cookie of the given name. -/
def observesCookie (fetch : String → Option FetchResult) (name u : String) : Bool :=
  match fetch u with
  | some r => r.cookies.any (fun c => c.name == name)
  | none => false

/-- Whether the visit of page `u` observes an iframe of the given source. -/
def observesIframe (fetch : String → Option FetchResult) (src u : String) : Bool :=
  match fetch u with
  | some r => r.iframeSources.any (fun x => x == src)
  | none => false

/-- Four-page site: `a → [b, c]`, `b → [d]`, `c → [b]`, `d → []`.  With
max depth 2 the second occurrence of `b` (as c's child) is memoized at
depth 2, so `d` reappears — as the *same* heap cell — at depth 3 with its
already-populated title. -/
def fetchWide (u : String) : Option FetchResult :=
  if u = "a" then some ⟨"A", ["b", "c"], [], []⟩
  else if u = "b" then some ⟨"B", ["d"], [], []⟩
  else if u = "c" then some ⟨"C", ["b"], [], []⟩
  else if u = "d" then some ⟨"D", [], [], []⟩
  else none

/-- The spec's §8 scenario fetcher: seed `a` yields `[b, c]`, `b` yields
`[a]` (filtered out as the seed), `c` yields `[b]`. -/
def fetchScen (u : String) : Option FetchResult :=
  if u = "a" then some ⟨"A", ["b", "c"], [], []⟩
  else if u = "b" then some ⟨"B", ["a"], [], []⟩
  else if u = "c" then some ⟨"C", ["b"], [], []⟩
  else none

/-- Two-page site where the cookie `sess` is observed on both pages and
an iframe source `frame1` likewise. -/
def fetchCk (u : String) : Option FetchResult :=
  if u = "a" then some ⟨"A", ["b"], ["frame1"], [⟨"sess", "va"⟩]⟩
  else if u = "b" then some ⟨"B", [], ["frame1"], [⟨"sess", "vb"⟩, ⟨"extra", "w"⟩]⟩
  else none

/-- Fetcher whose page `b` is unreachable: navigating to it throws. -/
def fetchFail (u : String) : Option FetchResult :=
  if u = "a" then some ⟨"A", ["b"], [], []⟩ else none

/-- A child-crawl stand-in that always raises a navigation error. -/
def errF (_ : Nat) (_ : CrawlState) : Except CrawlErr CrawlState :=
  .error (.nav "b")

/-- A fetcher that succeeds on every URL (used for termination). -/
def fetchTotal (u : String) : Option FetchResult :=
  some (if u = "a" then ⟨"A", ["b"], [], []⟩ else ⟨"B", [], [], []⟩)

/-- The final state of `runCrawl fetchWide "a" 2`: node 4 (the second
occurrence of `b`) was filled in by the memoized branch and shares the
cell of `d` (id 3) with node 1. -/
def wideFinal : CrawlState :=
  { heap := [(0, ⟨"a", some "A", some [1, 2]⟩),
             (1, ⟨"b", some "B", some [3]⟩),
             (2, ⟨"c", some "C", some [4]⟩),
             (3, ⟨"d", some "D", some []⟩),
             (4, ⟨"b", some "B", some [3]⟩)]
    nextId := 5
    pages := [("a", 0), ("b", 1), ("d", 3), ("c", 2)]
    cookies := []
    iframes := []
    fetchLog := [("a", 0), ("b", 1), ("d", 2), ("c", 1)] }

/-- The final state of `runCrawl fetchScen "a" 1`: node 3, the child of
`c` for the already-visited URL `b`, stays a bare `{url}` stub. -/
def scenFinal : CrawlState :=
  { heap := [(0, ⟨"a", some "A", some [1, 2]⟩),
             (1, ⟨"b", some "B", some []⟩),
             (2, ⟨"c", some "C", some [3]⟩),
             (3, ⟨"b", none, none⟩)]
    nextId := 4
    pages := [("a", 0), ("b", 1), ("c", 2)]
    cookies := []
    iframes := []
    fetchLog := [("a", 0), ("b", 1), ("c", 1)] }

/-- The final state of `runCrawl fetchCk "a" 1`: the cookie `sess` and the
iframe `frame1`, observed on both pages, carry `firstFound = "a"`. -/
def ckFinal : CrawlState :=
  { heap := [(0, ⟨"a", some "A", some [1]⟩), (1, ⟨"b", some "B", some []⟩)]
    nextId := 2
    pages := [("a", 0), ("b", 1)]
    cookies := [("sess", ⟨"sess", "va", "a"⟩), ("extra", ⟨"extra", "w", "b"⟩)]
    iframes := [("frame1", ⟨"frame1", "a"⟩)]
    fetchLog := [("a", 0), ("b", 1)] }

/-- A small state in which node 0 is the registered page for `"x"` with
one child (node 1, unregistered url `"y"`), and node 2 is a second,
distinct node object for the already-visited URL `"x"`. -/
def memoDemo : CrawlState :=
  { heap := [(0, ⟨"x", some "X", some [1]⟩),
             (1, ⟨"y", none, none⟩),
             (2, ⟨"x", none, none⟩)]
    nextId := 3
    pages := [("x", 0)]
    cookies := []
    iframes := []
    fetchLog := [("x", 0)] }

/-- `Ext s t`: every registry entry of `s` is still present unchanged in
`t`, and every allocated heap cell is still allocated. -/
def Ext (s t : CrawlState) : Prop :=
  (∀ k v, regLookup s.pages k = some v → regLookup t.pages k = some v) ∧
  (∀ k v, regLookup s.cookies k = some v → regLookup t.cookies k = some v) ∧
  (∀ k v, regLookup s.iframes k = some v → regLookup t.iframes k = some v) ∧
  (∀ j, (findNode s j).isSome → (findNode t j).isSome)

/-- Global invariant of a run: the fetch log has no duplicate URLs and is
exactly mirrored by `crawledPages`; all fetches happened within the depth
bound; registry entries point at allocated cells carrying the key URL;
every child id is a live non-root cell below the allocation counter; only
the root cell may carry the seed URL; and the cookie/iframe registries
record exactly the first observer of each key in fetch order. -/
structure Inv (fetch : String → Option FetchResult) (seed : String) (maxD : Nat)
    (s : CrawlState) : Prop where
  log_nodup : (s.fetchLog.map (·.1)).Nodup
  log_reg : ∀ u ∈ s.fetchLog.map (·.1), (regLookup s.pages u).isSome
  log_depth : ∀ e ∈ s.fetchLog, e.2 ≤ maxD
  reg_url : ∀ u id, regLookup s.pages u = some id →
    (findNode s id).isSome ∧ (lookupNode s id).url = u
  pos_next : 1 ≤ s.nextId
  ids_lt : ∀ id, (findNode s id).isSome → id < s.nextId
  child_ok : ∀ j, ∀ cid ∈ (lookupNode s j).children.getD [],
    1 ≤ cid ∧ cid < s.nextId ∧ (findNode s cid).isSome
  nonroot_url : ∀ j, j ≠ 0 → (findNode s j).isSome → (lookupNode s j).url ≠ seed
  cookie_first : ∀ name, (regLookup s.cookies name).map (·.firstFound) =
    (s.fetchLog.find? (fun e => observesCookie fetch name e.1)).map (·.1)
  iframe_first : ∀ src, (regLookup s.iframes src).map (·.firstFound) =
    (s.fetchLog.find? (fun e => observesIframe fetch src e.1)).map (·.1)

/-- No node's children list contains a node carrying the parent's own
URL (holds when the fetcher never reports a page linking to itself). -/
def SelfInv (s : CrawlState) : Prop :=
  ∀ j, ∀ cid ∈ (lookupNode s j).children.getD [],
    (lookupNode s cid).url ≠ (lookupNode s j).url

/-- The title the memoized branch writes into a child (lines 154-157):
the registry entry's title when the child's url is a key of
`crawledPages`, and `''` otherwise. -/
def backTitle (s : CrawlState) (cid : Nat) : String :=
  match regLookup s.pages ((lookupNode s cid).url) with
  | some rid => (lookupNode s rid).title.getD ""
  | none => ""

/-- What the backfill loop preserves, relative to the base state `s`:
the page registry, cell allocation, every cell's url, and the observable
title of every registered cell. -/
def BackfillPres (s t : CrawlState) : Prop :=
  t.pages = s.pages ∧
  (∀ j, (findNode t j).isSome = (findNode s j).isSome) ∧
  (∀ j, (lookupNode t j).url = (lookupNode s j).url) ∧
  (∀ u id, regLookup s.pages u = some id →
    (lookupNode t id).title.getD "" = (lookupNode s id).title.getD "")

/-! ### Lemmas about the registry and heap primitives -/

theorem regLookup_cons {α : Type} (q : String × α) (t : List (String × α)) (k : String) :
    regLookup (q :: t) k = if q.1 = k then some q.2 else regLookup t k := by
  unfold regLookup
  by_cases h : q.1 = k
  · rw [List.find?_cons_of_pos _ (by simp [h])]
    simp [h]
  · rw [List.find?_cons_of_neg _ (by simp [h])]
    simp [h]

theorem regLookup_append {α : Type} (m l : List (String × α)) (k : String) :
    regLookup (m ++ l) k = (regLookup m k).or (regLookup l k) := by
  unfold regLookup
  rw [List.find?_append]
  cases m.find? (fun p => p.1 == k) <;> simp

theorem regLookup_single {α : Type} (k k' : String) (v : α) :
    regLookup [(k, v)] k' = if k = k' then some v else none := by
  rw [regLookup_cons]
  rfl

theorem regLookup_append_single {α : Type} (m : List (String × α)) (k k' : String) (v : α) :
    regLookup (m ++ [(k, v)]) k' =
      (regLookup m k').or (if k = k' then some v else none) := by
  rw [regLookup_append, regLookup_single]

theorem regLookup_append_of_isSome {α : Type} {m : List (String × α)} {k : String}
    (l : List (String × α)) (h : (regLookup m k).isSome) :
    regLookup (m ++ l) k = regLookup m k := by
  rw [regLookup_append]
  cases hm : regLookup m k
  · rw [hm] at h; cases h
  · simp

theorem findEntry_cons (q : Nat × NodeData) (t : List (Nat × NodeData)) (j : Nat) :
    findEntry (q :: t) j = if q.1 = j then some q.2 else findEntry t j := by
  unfold findEntry
  by_cases h : q.1 = j
  · rw [List.find?_cons_of_pos _ (by simp [h])]
    simp [h]
  · rw [List.find?_cons_of_neg _ (by simp [h])]
    simp [h]

theorem findEntry_append (h1 h2 : List (Nat × NodeData)) (j : Nat) :
    findEntry (h1 ++ h2) j = (findEntry h1 j).or (findEntry h2 j) := by
  unfold findEntry
  rw [List.find?_append]
  cases h1.find? (fun p => p.1 == j) <;> simp

theorem findEntry_setEntry (h : List (Nat × NodeData)) (id : Nat) (d : NodeData) (j : Nat) :
    findEntry (setEntry h id d) j =
      if j = id then (findEntry h id).map (fun _ => d) else findEntry h j := by
  induction h with
  | nil => by_cases hj : j = id <;> simp [findEntry, setEntry, hj]
  | cons p t ih =>
    have hset : setEntry (p :: t) id d =
        (if p.1 = id then (id, d) else p) :: setEntry t id d := rfl
    rw [hset]
    by_cases hp : p.1 = id
    · by_cases hj : j = id
      · subst hj
        simp [hp, findEntry_cons, ih]
      · simp [hp, hj, findEntry_cons, ih, Ne.symm hj]
    · by_cases hj : j = id
      · subst hj
        simp [hp, findEntry_cons, ih]
      · simp [hp, hj, findEntry_cons, ih]

theorem setNode_pages (s : CrawlState) (id : Nat) (d : NodeData) :
    (setNode s id d).pages = s.pages := rfl

theorem setNode_cookies (s : CrawlState) (id : Nat) (d : NodeData) :
    (setNode s id d).cookies = s.cookies := rfl

theorem setNode_iframes (s : CrawlState) (id : Nat) (d : NodeData) :
    (setNode s id d).iframes = s.iframes := rfl

theorem setNode_fetchLog (s : CrawlState) (id : Nat) (d : NodeData) :
    (setNode s id d).fetchLog = s.fetchLog := rfl

theorem setNode_nextId (s : CrawlState) (id : Nat) (d : NodeData) :
    (setNode s id d).nextId = s.nextId := rfl

theorem findNode_setNode (s : CrawlState) (id : Nat) (d : NodeData) (j : Nat) :
    findNode (setNode s id d) j =
      if j = id then (findNode s id).map (fun _ => d) else findNode s j :=
  findEntry_setEntry s.heap id d j

theorem findNode_setNode_isSome (s : CrawlState) (id : Nat) (d : NodeData) (j : Nat) :
    (findNode (setNode s id d) j).isSome = (findNode s j).isSome := by
  rw [findNode_setNode]
  by_cases hj : j = id
  · subst hj; simp
  · simp [hj]

theorem lookupNode_setNode_self {s : CrawlState} {id : Nat} (d : NodeData)
    (h : (findNode s id).isSome) : lookupNode (setNode s id d) id = d := by
  unfold lookupNode
  rw [findNode_setNode, if_pos rfl]
  cases hm : findNode s id
  · rw [hm] at h; cases h
  · simp

theorem lookupNode_setNode_of_ne {j id : Nat} (s : CrawlState) (d : NodeData)
    (h : j ≠ id) : lookupNode (setNode s id d) j = lookupNode s j := by
  unfold lookupNode
  rw [findNode_setNode, if_neg h]

theorem lookupNode_setNode_dangling {s : CrawlState} {id : Nat} (d : NodeData) (j : Nat)
    (h : findNode s id = none) : lookupNode (setNode s id d) j = lookupNode s j := by
  unfold lookupNode
  rw [findNode_setNode]
  by_cases hj : j = id
  · subst hj; rw [h]; simp
  · rw [if_neg hj]

theorem allocKids_le (n : Nat) (us : List String) : n ≤ (allocKids n us).2.2 := by
  induction us generalizing n with
  | nil => simp [allocKids]
  | cons u us ih =>
    exact Nat.le_trans (Nat.le_succ n) (ih (n + 1))

theorem allocKids_entries (n : Nat) (us : List String) :
    ∀ p ∈ (allocKids n us).1,
      n ≤ p.1 ∧ p.1 < (allocKids n us).2.2 ∧ p.2.url ∈ us ∧
        p.2.title = none ∧ p.2.children = none := by
  induction us generalizing n with
  | nil => simp [allocKids]
  | cons u us ih =>
    intro p hp
    have hmem : p = (n, ⟨u, none, none⟩) ∨ p ∈ (allocKids (n + 1) us).1 := by
      simpa [allocKids] using hp
    rcases hmem with h | h
    · subst h
      refine ⟨Nat.le_refl n, ?_, by simp, rfl, rfl⟩
      exact Nat.lt_of_lt_of_le (Nat.lt_succ_self n) (allocKids_le (n + 1) us)
    · obtain ⟨h1, h2, h3, h4, h5⟩ := ih (n + 1) p h
      exact ⟨Nat.le_trans (Nat.le_succ n) h1, h2, by simp [h3], h4, h5⟩

theorem allocKids_ids (n : Nat) (us : List String) :
    ∀ k ∈ (allocKids n us).2.1,
      n ≤ k ∧ k < (allocKids n us).2.2 ∧ (findEntry (allocKids n us).1 k).isSome := by
  induction us generalizing n with
  | nil => simp [allocKids]
  | cons u us ih =>
    intro k hk
    have hmem : k = n ∨ k ∈ (allocKids (n + 1) us).2.1 := by
      simpa [allocKids] using hk
    have hcons : (allocKids n (u :: us)).1 =
        (n, ⟨u, none, none⟩) :: (allocKids (n + 1) us).1 := rfl
    rcases hmem with h | h
    · subst h
      refine ⟨Nat.le_refl k, Nat.lt_of_lt_of_le (Nat.lt_succ_self k) (allocKids_le (k + 1) us), ?_⟩
      rw [hcons, findEntry_cons, if_pos rfl]
      rfl
    · obtain ⟨h1, h2, h3⟩ := ih (n + 1) k h
      have hne : n ≠ k := Nat.ne_of_lt (Nat.lt_of_lt_of_le (Nat.lt_succ_self n) h1)
      refine ⟨Nat.le_trans (Nat.le_succ n) h1, h2, ?_⟩
      rw [hcons, findEntry_cons, if_neg hne]
      exact h3

theorem findEntry_allocKids_lt (n : Nat) (us : List String) (j : Nat) (h : j < n) :
    findEntry (allocKids n us).1 j = none := by
  induction us generalizing n with
  | nil => simp [allocKids, findEntry]
  | cons u us ih =>
    have hcons : (allocKids n (u :: us)).1 =
        (n, ⟨u, none, none⟩) :: (allocKids (n + 1) us).1 := rfl
    rw [hcons, findEntry_cons, if_neg (Nat.ne_of_gt h)]
    exact ih (n + 1) (Nat.lt_succ_of_lt h)

theorem regLookup_insertCookies (u : String) (cs : List Cookie)
    (m : List (String × CookieRecord)) (k : String) :
    regLookup (insertCookies u cs m) k =
      (regLookup m k).or
        ((cs.find? (fun c => c.name == k)).map (fun c => ⟨c.name, c.value, u⟩)) := by
  induction cs generalizing m with
  | nil => simp [insertCookies]
  | cons c cs ih =>
    have hstep : insertCookies u (c :: cs) m =
        insertCookies u cs
          (if (regLookup m c.name).isSome then m
           else m ++ [(c.name, ⟨c.name, c.value, u⟩)]) := rfl
    rw [hstep, ih]
    by_cases hk : c.name = k
    · subst hk
      cases hm : regLookup m c.name
      · rw [if_neg (by simp), regLookup_append_single, hm,
          List.find?_cons_of_pos _ (by simp)]
        simp
      · rw [if_pos (by simp), hm, List.find?_cons_of_pos _ (by simp)]
        simp
    · have hfind : (c :: cs).find? (fun x => x.name == k) =
          cs.find? (fun x => x.name == k) :=
        List.find?_cons_of_neg _ (by simp [hk])
      rw [hfind]
      cases hm : regLookup m c.name
      · rw [if_neg (by simp), regLookup_append_single]
        simp [hk]
      · rw [if_pos (by simp)]

theorem regLookup_insertIframes (u : String) (srcs : List String)
    (m : List (String × IframeRecord)) (k : String) :
    regLookup (insertIframes u srcs m) k =
      (regLookup m k).or
        ((srcs.find? (fun x => x == k)).map (fun x => ⟨x, u⟩)) := by
  induction srcs generalizing m with
  | nil => simp [insertIframes]
  | cons c cs ih =>
    have hstep : insertIframes u (c :: cs) m =
        insertIframes u cs
          (if (regLookup m c).isSome then m else m ++ [(c, ⟨c, u⟩)]) := rfl
    rw [hstep, ih]
    by_cases hk : c = k
    · subst hk
      cases hm : regLookup m c
      · rw [if_neg (by simp), regLookup_append_single, hm,
          List.find?_cons_of_pos _ (by simp)]
        simp
      · rw [if_pos (by simp), hm, List.find?_cons_of_pos _ (by simp)]
        simp
    · have hfind : (c :: cs).find? (fun x => x == k) = cs.find? (fun x => x == k) :=
        List.find?_cons_of_neg _ (by simp [hk])
      rw [hfind]
      cases hm : regLookup m c
      · rw [if_neg (by simp), regLookup_append_single]
        simp [hk]
      · rw [if_pos (by simp)]

/-! ### Frame and pointwise lemmas for the crawl steps -/

theorem logFetch_heap (s : CrawlState) (u : String) (d : Nat) :
    (logFetch s u d).heap = s.heap := rfl

theorem lookupNode_logFetch (s : CrawlState) (u : String) (d : Nat) (j : Nat) :
    lookupNode (logFetch s u d) j = lookupNode s j := rfl

theorem freshStep_pages (seed : String) (s : CrawlState) (pid : Nat) (res : FetchResult) :
    (freshStep seed s pid res).pages = s.pages ++ [((lookupNode s pid).url, pid)] := rfl

theorem freshStep_cookies (seed : String) (s : CrawlState) (pid : Nat) (res : FetchResult) :
    (freshStep seed s pid res).cookies =
      insertCookies (lookupNode s pid).url res.cookies s.cookies := rfl

theorem freshStep_iframes (seed : String) (s : CrawlState) (pid : Nat) (res : FetchResult) :
    (freshStep seed s pid res).iframes =
      insertIframes (lookupNode s pid).url res.iframeSources s.iframes := rfl

theorem freshStep_fetchLog (seed : String) (s : CrawlState) (pid : Nat) (res : FetchResult) :
    (freshStep seed s pid res).fetchLog = s.fetchLog := rfl

theorem freshStep_nextId (seed : String) (s : CrawlState) (pid : Nat) (res : FetchResult) :
    (freshStep seed s pid res).nextId = freshNext s seed res := rfl

theorem findNode_freshStep (seed : String) (s : CrawlState) (pid : Nat)
    (res : FetchResult) (j : Nat) :
    findNode (freshStep seed s pid res) j =
      if j = pid
      then ((findNode s pid).or (findEntry (freshCells s seed res) pid)).map
        (fun _ => ⟨(lookupNode s pid).url, some res.title, some (freshKids s seed res)⟩)
      else (findNode s j).or (findEntry (freshCells s seed res) j) := by
  have h : findNode (freshStep seed s pid res) j =
      findEntry (setEntry (s.heap ++ freshCells s seed res) pid
        ⟨(lookupNode s pid).url, some res.title, some (freshKids s seed res)⟩) j := rfl
  rw [h, findEntry_setEntry, findEntry_append, findEntry_append]
  rfl

theorem backfillChild_pages (s : CrawlState) (cid : Nat) :
    (backfillChild s cid).pages = s.pages := rfl

theorem backfillChild_cookies (s : CrawlState) (cid : Nat) :
    (backfillChild s cid).cookies = s.cookies := rfl

theorem backfillChild_iframes (s : CrawlState) (cid : Nat) :
    (backfillChild s cid).iframes = s.iframes := rfl

theorem backfillChild_fetchLog (s : CrawlState) (cid : Nat) :
    (backfillChild s cid).fetchLog = s.fetchLog := rfl

theorem backfillChild_nextId (s : CrawlState) (cid : Nat) :
    (backfillChild s cid).nextId = s.nextId := rfl

theorem findNode_backfillChild_isSome (s : CrawlState) (cid j : Nat) :
    (findNode (backfillChild s cid) j).isSome = (findNode s j).isSome :=
  findNode_setNode_isSome s cid _ j

theorem findNode_backfillChild_of_ne {j cid : Nat} (s : CrawlState) (h : j ≠ cid) :
    findNode (backfillChild s cid) j = findNode s j := by
  unfold backfillChild
  rw [findNode_setNode, if_neg h]

theorem lookupNode_backfillChild_of_ne {j cid : Nat} (s : CrawlState) (h : j ≠ cid) :
    lookupNode (backfillChild s cid) j = lookupNode s j := by
  unfold backfillChild
  exact lookupNode_setNode_of_ne _ _ h

theorem lookupNode_backfillChild_url (s : CrawlState) (cid j : Nat) :
    (lookupNode (backfillChild s cid) j).url = (lookupNode s j).url := by
  by_cases hj : j = cid
  · subst hj
    cases hm : findNode s j
    · unfold backfillChild
      rw [lookupNode_setNode_dangling _ _ hm]
    · unfold backfillChild
      rw [lookupNode_setNode_self _ (by rw [hm]; rfl)]
  · rw [lookupNode_backfillChild_of_ne s hj]

theorem lookupNode_backfillChild_children (s : CrawlState) (cid j : Nat) :
    (lookupNode (backfillChild s cid) j).children = (lookupNode s j).children := by
  by_cases hj : j = cid
  · subst hj
    cases hm : findNode s j
    · unfold backfillChild
      rw [lookupNode_setNode_dangling _ _ hm]
    · unfold backfillChild
      rw [lookupNode_setNode_self _ (by rw [hm]; rfl)]
  · rw [lookupNode_backfillChild_of_ne s hj]

theorem backfillTitles_pages (cs : List Nat) (s : CrawlState) :
    (backfillTitles s cs).pages = s.pages := by
  induction cs generalizing s with
  | nil => rfl
  | cons c cs ih =>
    have h : backfillTitles s (c :: cs) = backfillTitles (backfillChild s c) cs := rfl
    rw [h, ih, backfillChild_pages]

theorem backfillTitles_cookies (cs : List Nat) (s : CrawlState) :
    (backfillTitles s cs).cookies = s.cookies := by
  induction cs generalizing s with
  | nil => rfl
  | cons c cs ih =>
    have h : backfillTitles s (c :: cs) = backfillTitles (backfillChild s c) cs := rfl
    rw [h, ih, backfillChild_cookies]

theorem backfillTitles_iframes (cs : List Nat) (s : CrawlState) :
    (backfillTitles s cs).iframes = s.iframes := by
  induction cs generalizing s with
  | nil => rfl
  | cons c cs ih =>
    have h : backfillTitles s (c :: cs) = backfillTitles (backfillChild s c) cs := rfl
    rw [h, ih, backfillChild_iframes]

theorem backfillTitles_fetchLog (cs : List Nat) (s : CrawlState) :
    (backfillTitles s cs).fetchLog = s.fetchLog := by
  induction cs generalizing s with
  | nil => rfl
  | cons c cs ih =>
    have h : backfillTitles s (c :: cs) = backfillTitles (backfillChild s c) cs := rfl
    rw [h, ih, backfillChild_fetchLog]

theorem backfillTitles_nextId (cs : List Nat) (s : CrawlState) :
    (backfillTitles s cs).nextId = s.nextId := by
  induction cs generalizing s with
  | nil => rfl
  | cons c cs ih =>
    have h : backfillTitles s (c :: cs) = backfillTitles (backfillChild s c) cs := rfl
    rw [h, ih, backfillChild_nextId]

theorem findNode_backfillTitles_isSome (cs : List Nat) (s : CrawlState) (j : Nat) :
    (findNode (backfillTitles s cs) j).isSome = (findNode s j).isSome := by
  induction cs generalizing s with
  | nil => rfl
  | cons c cs ih =>
    have h : backfillTitles s (c :: cs) = backfillTitles (backfillChild s c) cs := rfl
    rw [h, ih, findNode_backfillChild_isSome]

theorem lookupNode_backfillTitles_url (cs : List Nat) (s : CrawlState) (j : Nat) :
    (lookupNode (backfillTitles s cs) j).url = (lookupNode s j).url := by
  induction cs generalizing s with
  | nil => rfl
  | cons c cs ih =>
    have h : backfillTitles s (c :: cs) = backfillTitles (backfillChild s c) cs := rfl
    rw [h, ih, lookupNode_backfillChild_url]

theorem lookupNode_backfillTitles_children (cs : List Nat) (s : CrawlState) (j : Nat) :
    (lookupNode (backfillTitles s cs) j).children = (lookupNode s j).children := by
  induction cs generalizing s with
  | nil => rfl
  | cons c cs ih =>
    have h : backfillTitles s (c :: cs) = backfillTitles (backfillChild s c) cs := rfl
    rw [h, ih, lookupNode_backfillChild_children]

theorem findNode_backfillTitles_not_mem {cs : List Nat} {j : Nat}
    (s : CrawlState) (h : j ∉ cs) :
    findNode (backfillTitles s cs) j = findNode s j := by
  induction cs generalizing s with
  | nil => rfl
  | cons c cs ih =>
    have hstep : backfillTitles s (c :: cs) = backfillTitles (backfillChild s c) cs := rfl
    have hne : j ≠ c := fun he => h (he ▸ List.mem_cons_self c cs)
    rw [hstep, ih (backfillChild s c) (fun hm => h (List.mem_cons_of_mem c hm)),
      findNode_backfillChild_of_ne s hne]

theorem memoStep_pages (s : CrawlState) (pid itemId : Nat) :
    (memoStep s pid itemId).pages = s.pages := by
  unfold memoStep
  rw [backfillTitles_pages, setNode_pages]

theorem memoStep_cookies (s : CrawlState) (pid itemId : Nat) :
    (memoStep s pid itemId).cookies = s.cookies := by
  unfold memoStep
  rw [backfillTitles_cookies, setNode_cookies]

theorem memoStep_iframes (s : CrawlState) (pid itemId : Nat) :
    (memoStep s pid itemId).iframes = s.iframes := by
  unfold memoStep
  rw [backfillTitles_iframes, setNode_iframes]

theorem memoStep_fetchLog (s : CrawlState) (pid itemId : Nat) :
    (memoStep s pid itemId).fetchLog = s.fetchLog := by
  unfold memoStep
  rw [backfillTitles_fetchLog, setNode_fetchLog]

theorem memoStep_nextId (s : CrawlState) (pid itemId : Nat) :
    (memoStep s pid itemId).nextId = s.nextId := by
  unfold memoStep
  rw [backfillTitles_nextId, setNode_nextId]

theorem findNode_memoStep_isSome (s : CrawlState) (pid itemId j : Nat) :
    (findNode (memoStep s pid itemId) j).isSome = (findNode s j).isSome := by
  unfold memoStep
  rw [findNode_backfillTitles_isSome, findNode_setNode_isSome]

theorem lookupNode_memoStep_url (s : CrawlState) (pid itemId j : Nat) :
    (lookupNode (memoStep s pid itemId) j).url = (lookupNode s j).url := by
  unfold memoStep
  rw [lookupNode_backfillTitles_url]
  by_cases hj : j = pid
  · subst hj
    cases hm : findNode s j
    · rw [lookupNode_setNode_dangling _ _ hm]
    · rw [lookupNode_setNode_self _ (by rw [hm]; rfl)]
  · rw [lookupNode_setNode_of_ne _ _ hj]

theorem memoStep_children_self {s : CrawlState} {pid : Nat} (itemId : Nat)
    (h : (findNode s pid).isSome) :
    (lookupNode (memoStep s pid itemId) pid).children =
      (lookupNode s itemId).children := by
  unfold memoStep
  rw [lookupNode_backfillTitles_children, lookupNode_setNode_self _ h]

theorem memoStep_children_of_ne {j pid : Nat} (s : CrawlState) (itemId : Nat)
    (h : j ≠ pid) :
    (lookupNode (memoStep s pid itemId) j).children = (lookupNode s j).children := by
  unfold memoStep
  rw [lookupNode_backfillTitles_children, lookupNode_setNode_of_ne _ _ h]

theorem memoStep_children_cases (s : CrawlState) (pid itemId j : Nat) :
    (lookupNode (memoStep s pid itemId) j).children = (lookupNode s j).children ∨
      (j = pid ∧ (lookupNode (memoStep s pid itemId) j).children =
        (lookupNode s itemId).children) := by
  by_cases hj : j = pid
  · subst hj
    cases hm : findNode s j
    · left
      unfold memoStep
      rw [lookupNode_backfillTitles_children, lookupNode_setNode_dangling _ _ hm]
    · right
      exact ⟨rfl, memoStep_children_self itemId (by rw [hm]; rfl)⟩
  · left
    exact memoStep_children_of_ne s itemId hj

theorem findNode_memoStep_untouched {s : CrawlState} {pid itemId j : Nat}
    (h1 : j ≠ pid) (h2 : j ∉ (lookupNode s itemId).children.getD []) :
    findNode (memoStep s pid itemId) j = findNode s j := by
  unfold memoStep
  rw [findNode_backfillTitles_not_mem _ h2]
  unfold findNode setNode
  rw [findEntry_setEntry]
  simp [h1]

theorem freshStep_children_self {s : CrawlState} {pid : Nat} (seed : String)
    (res : FetchResult) (h : (findNode s pid).isSome) :
    lookupNode (freshStep seed s pid res) pid =
      ⟨(lookupNode s pid).url, some res.title, some (freshKids s seed res)⟩ := by
  unfold lookupNode
  rw [findNode_freshStep, if_pos rfl]
  cases hm : findNode s pid
  · rw [hm] at h; cases h
  · simp [lookupNode, hm]

theorem findNode_freshStep_of_ne {j pid : Nat} (seed : String) (s : CrawlState)
    (res : FetchResult) (hj : j ≠ pid) (h : (findNode s j).isSome) :
    findNode (freshStep seed s pid res) j = findNode s j := by
  rw [findNode_freshStep, if_neg hj]
  cases hm : findNode s j
  · rw [hm] at h; cases h
  · simp

/-! ### The crawl function: branch equations -/

theorem crawlF_zero (fetch : String → Option FetchResult) (seed : String)
    (maxD pid depth : Nat) (s : CrawlState) :
    crawlF fetch seed maxD 0 pid depth s = .error .fuel := rfl

theorem crawlF_succ (fetch : String → Option FetchResult) (seed : String)
    (maxD fuel pid depth : Nat) (s : CrawlState) :
    crawlF fetch seed maxD (fuel + 1) pid depth s =
      crawlAux fetch seed maxD (crawlF fetch seed maxD fuel) pid depth s := rfl

theorem crawlAux_cutoff (fetch : String → Option FetchResult) (seed : String)
    {maxD : Nat} (recur : Nat → Nat → CrawlState → Except CrawlErr CrawlState)
    (pid : Nat) {depth : Nat} (s : CrawlState) (h : depth > maxD) :
    crawlAux fetch seed maxD recur pid depth s = .ok s := by
  unfold crawlAux
  rw [if_pos h]

theorem crawlAux_memo (fetch : String → Option FetchResult) (seed : String)
    {maxD : Nat} (recur : Nat → Nat → CrawlState → Except CrawlErr CrawlState)
    {pid : Nat} {depth : Nat} {s : CrawlState} {itemId : Nat}
    (h1 : ¬depth > maxD)
    (h2 : regLookup s.pages (lookupNode s pid).url = some itemId) :
    crawlAux fetch seed maxD recur pid depth s = .ok (memoStep s pid itemId) := by
  unfold crawlAux
  rw [if_neg h1]
  simp only [h2]

theorem crawlAux_navFail {fetch : String → Option FetchResult} (seed : String)
    {maxD : Nat} (recur : Nat → Nat → CrawlState → Except CrawlErr CrawlState)
    {pid : Nat} {depth : Nat} {s : CrawlState}
    (h1 : ¬depth > maxD)
    (h2 : regLookup s.pages (lookupNode s pid).url = none)
    (h3 : fetch (lookupNode s pid).url = none) :
    crawlAux fetch seed maxD recur pid depth s =
      .error (.nav (lookupNode s pid).url) := by
  unfold crawlAux
  rw [if_neg h1]
  simp only [h2, h3]

theorem crawlAux_fresh {fetch : String → Option FetchResult} (seed : String)
    {maxD : Nat} (recur : Nat → Nat → CrawlState → Except CrawlErr CrawlState)
    {pid : Nat} {depth : Nat} {s : CrawlState} {res : FetchResult}
    (h1 : ¬depth > maxD)
    (h2 : regLookup s.pages (lookupNode s pid).url = none)
    (h3 : fetch (lookupNode s pid).url = some res) :
    crawlAux fetch seed maxD recur pid depth s =
      goKids (fun k t => recur k (depth + 1) t)
        ((lookupNode (freshStep seed (logFetch s (lookupNode s pid).url depth) pid res)
            pid).children.getD [])
        (freshStep seed (logFetch s (lookupNode s pid).url depth) pid res) := by
  unfold crawlAux
  rw [if_neg h1]
  simp only [h2, h3]

theorem goKids_nil (f : Nat → CrawlState → Except CrawlErr CrawlState) (s : CrawlState) :
    goKids f [] s = .ok s := rfl

theorem goKids_cons_ok {f : Nat → CrawlState → Except CrawlErr CrawlState}
    {k : Nat} {s s1 : CrawlState} (ks : List Nat) (h : f k s = .ok s1) :
    goKids f (k :: ks) s = goKids f ks s1 := by
  have hu : goKids f (k :: ks) s =
      match f k s with
      | .error e => .error e
      | .ok s1 => goKids f ks s1 := rfl
  rw [hu, h]

theorem goKids_cons_err {f : Nat → CrawlState → Except CrawlErr CrawlState}
    {k : Nat} {s : CrawlState} {e : CrawlErr} (ks : List Nat) (h : f k s = .error e) :
    goKids f (k :: ks) s = .error e := by
  have hu : goKids f (k :: ks) s =
      match f k s with
      | .error e => .error e
      | .ok s1 => goKids f ks s1 := rfl
  rw [hu, h]

/-! ### Monotonicity: registries only grow, heap cells are never deleted -/

theorem ext_refl (s : CrawlState) : Ext s s :=
  ⟨fun _ _ h => h, fun _ _ h => h, fun _ _ h => h, fun _ h => h⟩

theorem ext_trans {s t u : CrawlState} (h1 : Ext s t) (h2 : Ext t u) : Ext s u :=
  ⟨fun k v h => h2.1 k v (h1.1 k v h),
   fun k v h => h2.2.1 k v (h1.2.1 k v h),
   fun k v h => h2.2.2.1 k v (h1.2.2.1 k v h),
   fun j h => h2.2.2.2 j (h1.2.2.2 j h)⟩

theorem regLookup_mono_append {α : Type} {m : List (String × α)} {k : String} {v : α}
    (l : List (String × α)) (h : regLookup m k = some v) :
    regLookup (m ++ l) k = some v := by
  rw [regLookup_append, h]
  rfl

theorem ext_memoStep (s : CrawlState) (pid itemId : Nat) :
    Ext s (memoStep s pid itemId) := by
  refine ⟨?_, ?_, ?_, ?_⟩
  · intro k v h; rw [memoStep_pages]; exact h
  · intro k v h; rw [memoStep_cookies]; exact h
  · intro k v h; rw [memoStep_iframes]; exact h
  · intro j h; rw [findNode_memoStep_isSome]; exact h

theorem ext_logFetch (s : CrawlState) (u : String) (d : Nat) :
    Ext s (logFetch s u d) :=
  ⟨fun _ _ h => h, fun _ _ h => h, fun _ _ h => h, fun _ h => h⟩

theorem ext_freshStep (seed : String) (s : CrawlState) (pid : Nat) (res : FetchResult) :
    Ext s (freshStep seed s pid res) := by
  refine ⟨?_, ?_, ?_, ?_⟩
  · intro k v h
    rw [freshStep_pages]
    exact regLookup_mono_append _ h
  · intro k v h
    rw [freshStep_cookies, regLookup_insertCookies, h]
    rfl
  · intro k v h
    rw [freshStep_iframes, regLookup_insertIframes, h]
    rfl
  · intro j h
    rw [findNode_freshStep]
    by_cases hj : j = pid
    · subst hj
      rw [if_pos rfl]
      cases hm : findNode s j
      · rw [hm] at h; cases h
      · simp
    · rw [if_neg hj]
      cases hm : findNode s j
      · rw [hm] at h; cases h
      · simp

theorem goKids_ext {f : Nat → CrawlState → Except CrawlErr CrawlState}
    (hf : ∀ k t t', f k t = .ok t' → Ext t t') :
    ∀ (ks : List Nat) (s s' : CrawlState), goKids f ks s = .ok s' → Ext s s' := by
  intro ks
  induction ks with
  | nil =>
    intro s s' h
    rw [goKids_nil] at h
    cases h
    exact ext_refl s
  | cons k ks ih =>
    intro s s' h
    cases hk : f k s with
    | error e => rw [goKids_cons_err ks hk] at h; cases h
    | ok s1 =>
      rw [goKids_cons_ok ks hk] at h
      exact ext_trans (hf k s s1 hk) (ih s1 s' h)

theorem crawlAux_ext {fetch : String → Option FetchResult} {seed : String} {maxD : Nat}
    {recur : Nat → Nat → CrawlState → Except CrawlErr CrawlState}
    (hrec : ∀ k d t t', recur k d t = .ok t' → Ext t t') :
    ∀ (pid depth : Nat) (s s' : CrawlState),
      crawlAux fetch seed maxD recur pid depth s = .ok s' → Ext s s' := by
  intro pid depth s s' h
  by_cases hd : depth > maxD
  · rw [crawlAux_cutoff fetch seed recur pid s hd] at h
    cases h
    exact ext_refl s
  · cases hreg : regLookup s.pages (lookupNode s pid).url with
    | some itemId =>
      rw [crawlAux_memo fetch seed recur hd hreg] at h
      cases h
      exact ext_memoStep s pid itemId
    | none =>
      cases hf : fetch (lookupNode s pid).url with
      | none =>
        rw [crawlAux_navFail seed recur hd hreg hf] at h
        cases h
      | some res =>
        rw [crawlAux_fresh seed recur hd hreg hf] at h
        have hstep : Ext s (freshStep seed (logFetch s (lookupNode s pid).url depth) pid res) :=
          ext_trans (ext_logFetch s (lookupNode s pid).url depth)
            (ext_freshStep seed (logFetch s (lookupNode s pid).url depth) pid res)
        exact ext_trans hstep
          (goKids_ext (fun k t t' hk => hrec k (depth + 1) t t' hk) _ _ _ h)

theorem crawlF_ext (fetch : String → Option FetchResult) (seed : String) (maxD : Nat) :
    ∀ (fuel pid depth : Nat) (s s' : CrawlState),
      crawlF fetch seed maxD fuel pid depth s = .ok s' → Ext s s' := by
  intro fuel
  induction fuel with
  | zero => intro pid depth s s' h; rw [crawlF_zero] at h; cases h
  | succ fuel ih =>
    intro pid depth s s' h
    rw [crawlF_succ] at h
    exact crawlAux_ext (fun k d t t' hk => ih k d t t' hk) pid depth s s' h

/-! ### Small option and list helpers -/

theorem option_or_eq_some {α : Type} {a b : Option α} {x : α} (h : a.or b = some x) :
    a = some x ∨ (a = none ∧ b = some x) := by
  cases a with
  | none => exact Or.inr ⟨rfl, by simpa using h⟩
  | some y => exact Or.inl (by simpa using h)

theorem option_isSome_or_left {α : Type} {a : Option α} (b : Option α)
    (h : a.isSome) : (a.or b).isSome := by
  cases a
  · cases h
  · rfl

theorem option_isSome_or_right {α : Type} (a : Option α) {b : Option α}
    (h : b.isSome) : (a.or b).isSome := by
  cases a
  · simpa using h
  · rfl

theorem findEntry_eq_some {h : List (Nat × NodeData)} {id : Nat} {d : NodeData}
    (he : findEntry h id = some d) : ∃ p, p ∈ h ∧ p.1 = id ∧ p.2 = d := by
  unfold findEntry at he
  cases hf : h.find? (fun p => p.1 == id) with
  | none => rw [hf] at he; cases he
  | some p =>
    rw [hf] at he
    refine ⟨p, List.mem_of_find?_eq_some hf, ?_, by simpa using he⟩
    have := List.find?_some hf
    simpa using this

theorem mem_freshAnchors_ne_seed {seed : String} {res : FetchResult} {a : String}
    (h : a ∈ freshAnchors seed res) : a ≠ seed := by
  unfold freshAnchors at h
  have := (List.mem_filter.mp h).2
  simpa using this

theorem lookupNode_eq_of_findNode_eq {s t : CrawlState} {j i : Nat}
    (h : findNode s j = findNode t i) : lookupNode s j = lookupNode t i := by
  unfold lookupNode
  rw [h]

theorem lookupNode_eq_getD {s : CrawlState} {j : Nat} {o : Option NodeData}
    (h : findNode s j = o) : lookupNode s j = o.getD ⟨"", none, none⟩ := by
  unfold lookupNode
  rw [h]

theorem lookupNode_eq_of_some {s : CrawlState} {j : Nat} {d : NodeData}
    (h : findNode s j = some d) : lookupNode s j = d :=
  lookupNode_eq_getD h

/-! ### The master invariant: initial state and preservation -/

theorem inv_init (fetch : String → Option FetchResult) (seed : String) (maxD : Nat) :
    Inv fetch seed maxD (initState seed) := by
  constructor
  · simp [initState]
  · simp [initState]
  · simp [initState]
  · intro u id h
    simp [initState, regLookup] at h
  · simp [initState]
  · intro id h
    have : findNode (initState seed) id =
        if 0 = id then some ⟨seed, none, none⟩ else none := by
      unfold findNode initState
      rw [findEntry_cons]
      rfl
    rw [this] at h
    by_cases h0 : 0 = id
    · simp [initState, ← h0]
    · rw [if_neg h0] at h
      cases h
  · intro j cid hcid
    have : findNode (initState seed) j =
        if 0 = j then some ⟨seed, none, none⟩ else none := by
      unfold findNode initState
      rw [findEntry_cons]
      rfl
    by_cases h0 : 0 = j
    · subst h0
      simp [lookupNode, this] at hcid
    · simp [lookupNode, this, h0] at hcid
  · intro j hj h
    have : findNode (initState seed) j =
        if 0 = j then some ⟨seed, none, none⟩ else none := by
      unfold findNode initState
      rw [findEntry_cons]
      rfl
    rw [this, if_neg (fun he => hj he.symm)] at h
    cases h
  · simp [initState, regLookup]
  · simp [initState, regLookup]

theorem inv_memoStep {fetch : String → Option FetchResult} {seed : String}
    {maxD : Nat} {s : CrawlState} (hinv : Inv fetch seed maxD s) (pid itemId : Nat) :
    Inv fetch seed maxD (memoStep s pid itemId) := by
  constructor
  · rw [memoStep_fetchLog]
    exact hinv.log_nodup
  · intro u hu
    rw [memoStep_fetchLog] at hu
    rw [memoStep_pages]
    exact hinv.log_reg u hu
  · intro e he
    rw [memoStep_fetchLog] at he
    exact hinv.log_depth e he
  · intro u id h
    rw [memoStep_pages] at h
    obtain ⟨h1, h2⟩ := hinv.reg_url u id h
    exact ⟨by rw [findNode_memoStep_isSome]; exact h1,
      by rw [lookupNode_memoStep_url]; exact h2⟩
  · rw [memoStep_nextId]
    exact hinv.pos_next
  · intro id h
    rw [findNode_memoStep_isSome] at h
    rw [memoStep_nextId]
    exact hinv.ids_lt id h
  · intro j cid hcid
    rw [memoStep_nextId]
    rcases memoStep_children_cases s pid itemId j with hc | ⟨hjp, hc⟩
    · rw [hc] at hcid
      obtain ⟨a, b, c⟩ := hinv.child_ok j cid hcid
      exact ⟨a, b, by rw [findNode_memoStep_isSome]; exact c⟩
    · rw [hc] at hcid
      obtain ⟨a, b, c⟩ := hinv.child_ok itemId cid hcid
      exact ⟨a, b, by rw [findNode_memoStep_isSome]; exact c⟩
  · intro j hj h
    rw [findNode_memoStep_isSome] at h
    rw [lookupNode_memoStep_url]
    exact hinv.nonroot_url j hj h
  · intro name
    rw [memoStep_cookies, memoStep_fetchLog]
    exact hinv.cookie_first name
  · intro src
    rw [memoStep_iframes, memoStep_fetchLog]
    exact hinv.iframe_first src

theorem freshCells_entries (s : CrawlState) (seed : String) (res : FetchResult) :
    ∀ p ∈ freshCells s seed res,
      s.nextId ≤ p.1 ∧ p.1 < freshNext s seed res ∧ p.2.url ∈ freshAnchors seed res ∧
        p.2.title = none ∧ p.2.children = none :=
  allocKids_entries s.nextId (freshAnchors seed res)

theorem freshKids_mem (s : CrawlState) (seed : String) (res : FetchResult) :
    ∀ k ∈ freshKids s seed res,
      s.nextId ≤ k ∧ k < freshNext s seed res ∧
        (findEntry (freshCells s seed res) k).isSome :=
  allocKids_ids s.nextId (freshAnchors seed res)

theorem freshNext_le (s : CrawlState) (seed : String) (res : FetchResult) :
    s.nextId ≤ freshNext s seed res :=
  allocKids_le s.nextId (freshAnchors seed res)

theorem inv_freshStep {fetch : String → Option FetchResult} {seed : String}
    {maxD : Nat} {s : CrawlState} (hinv : Inv fetch seed maxD s)
    {pid depth : Nat} {res : FetchResult}
    (hpid : (findNode s pid).isSome)
    (hreg : regLookup s.pages (lookupNode s pid).url = none)
    (hfetch : fetch (lookupNode s pid).url = some res)
    (hdepth : depth ≤ maxD) :
    Inv fetch seed maxD
      (freshStep seed (logFetch s (lookupNode s pid).url depth) pid res) := by
  have hpages : (freshStep seed (logFetch s (lookupNode s pid).url depth) pid res).pages
      = s.pages ++ [((lookupNode s pid).url, pid)] := rfl
  have hcookies : (freshStep seed (logFetch s (lookupNode s pid).url depth) pid res).cookies
      = insertCookies (lookupNode s pid).url res.cookies s.cookies := rfl
  have hiframes : (freshStep seed (logFetch s (lookupNode s pid).url depth) pid res).iframes
      = insertIframes (lookupNode s pid).url res.iframeSources s.iframes := rfl
  have hlog : (freshStep seed (logFetch s (lookupNode s pid).url depth) pid res).fetchLog
      = s.fetchLog ++ [((lookupNode s pid).url, depth)] := rfl
  have hnext : (freshStep seed (logFetch s (lookupNode s pid).url depth) pid res).nextId
      = freshNext s seed res := rfl
  have hfind : ∀ j, findNode (freshStep seed (logFetch s (lookupNode s pid).url depth) pid res) j =
      if j = pid
      then ((findNode s pid).or (findEntry (freshCells s seed res) pid)).map
        (fun _ => ⟨(lookupNode s pid).url, some res.title, some (freshKids s seed res)⟩)
      else (findNode s j).or (findEntry (freshCells s seed res) j) :=
    fun j => findNode_freshStep seed (logFetch s (lookupNode s pid).url depth) pid res j
  have hl2 : lookupNode (freshStep seed (logFetch s (lookupNode s pid).url depth) pid res) pid
      = ⟨(lookupNode s pid).url, some res.title, some (freshKids s seed res)⟩ :=
    freshStep_children_self seed res hpid
  constructor
  · rw [hlog, List.map_append]
    refine List.Nodup.append hinv.log_nodup (by simp) ?_
    intro a ha hb
    simp only [List.map_cons, List.map_nil, List.mem_singleton] at hb
    subst hb
    have := hinv.log_reg _ ha
    rw [hreg] at this
    cases this
  · intro w hw
    rw [hlog, List.map_append] at hw
    rw [hpages]
    rcases List.mem_append.mp hw with h | h
    · obtain ⟨v, hv⟩ := Option.isSome_iff_exists.mp (hinv.log_reg w h)
      rw [regLookup_mono_append _ hv]
      rfl
    · simp only [List.map_cons, List.map_nil, List.mem_singleton] at h
      subst h
      rw [regLookup_append_single, hreg, if_pos rfl]
      rfl
  · intro e he
    rw [hlog] at he
    rcases List.mem_append.mp he with h | h
    · exact hinv.log_depth e h
    · simp only [List.mem_singleton] at h
      rw [h]
      exact hdepth
  · intro w id h
    rw [hpages, regLookup_append_single] at h
    rcases option_or_eq_some h with h1 | ⟨h1, h2⟩
    · obtain ⟨ha, hb⟩ := hinv.reg_url w id h1
      by_cases hip : id = pid
      · exfalso
        subst hip
        rw [hb] at hreg
        rw [hreg] at h1
        cases h1
      · have heq : findNode (freshStep seed (logFetch s (lookupNode s pid).url depth) pid res) id
            = findNode s id := by
          rw [hfind id, if_neg hip]
          obtain ⟨d, hd⟩ := Option.isSome_iff_exists.mp ha
          rw [hd]
          rfl
        exact ⟨by rw [heq]; exact ha, by rw [lookupNode_eq_of_findNode_eq heq]; exact hb⟩
    · by_cases huw : (lookupNode s pid).url = w
      · rw [if_pos huw] at h2
        have hid : id = pid := by
          have := h2
          injection this with h3
          exact h3.symm
        subst hid
        refine ⟨?_, ?_⟩
        · rw [hfind id, if_pos rfl]
          obtain ⟨d, hd⟩ := Option.isSome_iff_exists.mp hpid
          rw [hd]
          rfl
        · rw [hl2]
          exact huw
      · rw [if_neg huw] at h2
        cases h2
  · rw [hnext]
    exact Nat.le_trans hinv.pos_next (freshNext_le s seed res)
  · intro id h
    rw [hfind id] at h
    rw [hnext]
    by_cases hip : id = pid
    · subst hip
      exact Nat.lt_of_lt_of_le (hinv.ids_lt id hpid) (freshNext_le s seed res)
    · rw [if_neg hip] at h
      cases hm : findNode s id with
      | none =>
        rw [hm, Option.none_or] at h
        obtain ⟨d, hd⟩ := Option.isSome_iff_exists.mp h
        obtain ⟨p, hp, hp1, hp2⟩ := findEntry_eq_some hd
        obtain ⟨_, hlt, _, _, _⟩ := freshCells_entries s seed res p hp
        rw [hp1] at hlt
        exact hlt
      | some d =>
        have := hinv.ids_lt id (by rw [hm]; rfl)
        exact Nat.lt_of_lt_of_le this (freshNext_le s seed res)
  · intro j cid hcid
    rw [hnext]
    by_cases hjp : j = pid
    · subst hjp
      rw [hl2] at hcid
      simp only [Option.getD_some] at hcid
      obtain ⟨hge, hlt, hsome⟩ := freshKids_mem s seed res cid hcid
      refine ⟨Nat.le_trans hinv.pos_next hge, hlt, ?_⟩
      have hcp : cid ≠ j := by
        intro hc
        subst hc
        exact Nat.lt_irrefl cid (Nat.lt_of_lt_of_le (hinv.ids_lt cid hpid) hge)
      rw [hfind cid, if_neg hcp]
      exact option_isSome_or_right _ hsome
    · cases hm : findNode s j with
      | none =>
        have heq2 : findNode (freshStep seed (logFetch s (lookupNode s pid).url depth) pid res) j
            = findEntry (freshCells s seed res) j := by
          rw [hfind j, if_neg hjp, hm, Option.none_or]
        cases hfe : findEntry (freshCells s seed res) j with
        | none =>
          rw [lookupNode_eq_getD (hfe ▸ heq2)] at hcid
          simp at hcid
        | some d =>
          rw [lookupNode_eq_of_some (hfe ▸ heq2)] at hcid
          obtain ⟨p, hp, hp1, hp2⟩ := findEntry_eq_some hfe
          obtain ⟨_, _, _, _, hch⟩ := freshCells_entries s seed res p hp
          rw [hp2] at hch
          rw [hch] at hcid
          simp at hcid
      | some d =>
        have heq : findNode (freshStep seed (logFetch s (lookupNode s pid).url depth) pid res) j
            = findNode s j := by
          rw [hfind j, if_neg hjp, hm]
          rfl
        rw [lookupNode_eq_of_findNode_eq heq] at hcid
        obtain ⟨a, b, c⟩ := hinv.child_ok j cid hcid
        refine ⟨a, Nat.lt_of_lt_of_le b (freshNext_le s seed res), ?_⟩
        exact (ext_freshStep seed (logFetch s (lookupNode s pid).url depth) pid res).2.2.2 cid c
  · intro j hj h
    by_cases hjp : j = pid
    · subst hjp
      rw [hl2]
      exact hinv.nonroot_url j hj hpid
    · rw [hfind j, if_neg hjp] at h
      cases hm : findNode s j with
      | none =>
        rw [hm, Option.none_or] at h
        obtain ⟨d, hd⟩ := Option.isSome_iff_exists.mp h
        have heq2 : findNode (freshStep seed (logFetch s (lookupNode s pid).url depth) pid res) j
            = some d := by
          rw [hfind j, if_neg hjp, hm, Option.none_or, hd]
        rw [lookupNode_eq_of_some heq2]
        obtain ⟨p, hp, hp1, hp2⟩ := findEntry_eq_some hd
        obtain ⟨_, _, hurl, _, _⟩ := freshCells_entries s seed res p hp
        rw [hp2] at hurl
        exact mem_freshAnchors_ne_seed hurl
      | some d =>
        have heq : findNode (freshStep seed (logFetch s (lookupNode s pid).url depth) pid res) j
            = findNode s j := by
          rw [hfind j, if_neg hjp, hm]
          rfl
        rw [lookupNode_eq_of_findNode_eq heq]
        exact hinv.nonroot_url j hj (by rw [hm]; rfl)
  · intro name
    rw [hcookies, hlog, regLookup_insertCookies, List.find?_append]
    have hobs : observesCookie fetch name (lookupNode s pid).url
        = res.cookies.any (fun c => c.name == name) := by
      unfold observesCookie
      rw [hfetch]
    cases hc : regLookup s.cookies name with
    | none =>
      have hold := hinv.cookie_first name
      rw [hc] at hold
      have hnone : s.fetchLog.find? (fun e => observesCookie fetch name e.1) = none := by
        cases hff : s.fetchLog.find? (fun e => observesCookie fetch name e.1) with
        | none => rfl
        | some e => rw [hff] at hold; simp at hold
      rw [hnone, Option.none_or, Option.none_or]
      cases hfc : res.cookies.find? (fun c => c.name == name) with
      | none =>
        have hany : res.cookies.any (fun c => c.name == name) = false := by
          rw [List.any_eq_false]
          intro c hcm
          exact fun hcp => by
            have := List.find?_eq_none.mp hfc c hcm
            exact this hcp
        rw [List.find?_cons_of_neg _ (by simp [hobs, hany])]
        rfl
      | some ck =>
        have hpc : (ck.name == name) = true := by simpa using List.find?_some hfc
        have hany : res.cookies.any (fun c => c.name == name) = true :=
          List.any_eq_true.mpr ⟨ck, List.mem_of_find?_eq_some hfc, hpc⟩
        rw [List.find?_cons_of_pos _ (by simp [hobs, hany])]
        rfl
    | some rec =>
      have hold := hinv.cookie_first name
      rw [hc] at hold
      cases hff : s.fetchLog.find? (fun e => observesCookie fetch name e.1) with
      | none => rw [hff] at hold; simp at hold
      | some e =>
        rw [hff] at hold
        simpa using hold
  · intro src
    rw [hiframes, hlog, regLookup_insertIframes, List.find?_append]
    have hobs : observesIframe fetch src (lookupNode s pid).url
        = res.iframeSources.any (fun x => x == src) := by
      unfold observesIframe
      rw [hfetch]
    cases hc : regLookup s.iframes src with
    | none =>
      have hold := hinv.iframe_first src
      rw [hc] at hold
      have hnone : s.fetchLog.find? (fun e => observesIframe fetch src e.1) = none := by
        cases hff : s.fetchLog.find? (fun e => observesIframe fetch src e.1) with
        | none => rfl
        | some e => rw [hff] at hold; simp at hold
      rw [hnone, Option.none_or, Option.none_or]
      cases hfc : res.iframeSources.find? (fun x => x == src) with
      | none =>
        have hany : res.iframeSources.any (fun x => x == src) = false := by
          rw [List.any_eq_false]
          intro x hxm
          exact fun hxp => by
            have := List.find?_eq_none.mp hfc x hxm
            exact this hxp
        rw [List.find?_cons_of_neg _ (by simp [hobs, hany])]
        rfl
      | some y =>
        have hpy : (y == src) = true := by simpa using List.find?_some hfc
        have hany : res.iframeSources.any (fun x => x == src) = true :=
          List.any_eq_true.mpr ⟨y, List.mem_of_find?_eq_some hfc, hpy⟩
        rw [List.find?_cons_of_pos _ (by simp [hobs, hany])]
        rfl
    | some rec =>
      have hold := hinv.iframe_first src
      rw [hc] at hold
      cases hff : s.fetchLog.find? (fun e => observesIframe fetch src e.1) with
      | none => rw [hff] at hold; simp at hold
      | some e =>
        rw [hff] at hold
        simpa using hold

theorem goKids_inv {fetch : String → Option FetchResult} {seed : String} {maxD : Nat}
    {f : Nat → CrawlState → Except CrawlErr CrawlState}
    (hf : ∀ k t t', Inv fetch seed maxD t → (findNode t k).isSome →
      f k t = .ok t' → Inv fetch seed maxD t')
    (hext : ∀ k t t', f k t = .ok t' → Ext t t') :
    ∀ (ks : List Nat) (s s' : CrawlState), Inv fetch seed maxD s →
      (∀ k ∈ ks, (findNode s k).isSome) →
      goKids f ks s = .ok s' → Inv fetch seed maxD s' := by
  intro ks
  induction ks with
  | nil =>
    intro s s' hinv hp h
    rw [goKids_nil] at h
    cases h
    exact hinv
  | cons k ks ih =>
    intro s s' hinv hp h
    cases hk : f k s with
    | error e => rw [goKids_cons_err ks hk] at h; cases h
    | ok s1 =>
      rw [goKids_cons_ok ks hk] at h
      have hinv1 := hf k s s1 hinv (hp k (List.mem_cons_self k ks)) hk
      have hext1 := hext k s s1 hk
      exact ih s1 s' hinv1
        (fun k' hk' => hext1.2.2.2 k' (hp k' (List.mem_cons_of_mem k hk'))) h

theorem crawlAux_inv {fetch : String → Option FetchResult} {seed : String} {maxD : Nat}
    {recur : Nat → Nat → CrawlState → Except CrawlErr CrawlState}
    (hrec : ∀ k d t t', Inv fetch seed maxD t → (findNode t k).isSome →
      recur k d t = .ok t' → Inv fetch seed maxD t')
    (hrecext : ∀ k d t t', recur k d t = .ok t' → Ext t t') :
    ∀ (pid depth : Nat) (s s' : CrawlState), Inv fetch seed maxD s →
      (findNode s pid).isSome →
      crawlAux fetch seed maxD recur pid depth s = .ok s' → Inv fetch seed maxD s' := by
  intro pid depth s s' hinv hpid h
  by_cases hd : depth > maxD
  · rw [crawlAux_cutoff fetch seed recur pid s hd] at h
    cases h
    exact hinv
  · cases hreg : regLookup s.pages (lookupNode s pid).url with
    | some itemId =>
      rw [crawlAux_memo fetch seed recur hd hreg] at h
      cases h
      exact inv_memoStep hinv pid itemId
    | none =>
      cases hfe : fetch (lookupNode s pid).url with
      | none => rw [crawlAux_navFail seed recur hd hreg hfe] at h; cases h
      | some res =>
        rw [crawlAux_fresh seed recur hd hreg hfe] at h
        have hinv2 := inv_freshStep hinv hpid hreg hfe (Nat.le_of_not_lt hd)
        have hkids : ∀ k ∈ (lookupNode
            (freshStep seed (logFetch s (lookupNode s pid).url depth) pid res)
              pid).children.getD [],
            (findNode (freshStep seed (logFetch s (lookupNode s pid).url depth) pid res)
              k).isSome := by
          intro k hk
          exact (hinv2.child_ok pid k hk).2.2
        exact goKids_inv (fun k t t' ha hb hc => hrec k (depth + 1) t t' ha hb hc)
          (fun k t t' hc => hrecext k (depth + 1) t t' hc) _ _ _ hinv2 hkids h

theorem crawlF_inv (fetch : String → Option FetchResult) (seed : String) (maxD : Nat) :
    ∀ (fuel pid depth : Nat) (s s' : CrawlState), Inv fetch seed maxD s →
      (findNode s pid).isSome →
      crawlF fetch seed maxD fuel pid depth s = .ok s' → Inv fetch seed maxD s' := by
  intro fuel
  induction fuel with
  | zero =>
    intro pid depth s s' _ _ h
    rw [crawlF_zero] at h
    cases h
  | succ fuel ih =>
    intro pid depth s s' hinv hpid h
    rw [crawlF_succ] at h
    exact crawlAux_inv (fun k d t t' => ih k d t t')
      (fun k d t t' => crawlF_ext fetch seed maxD fuel k d t t') pid depth s s' hinv hpid h

theorem findNode_init_root (seed : String) :
    (findNode (initState seed) 0).isSome := rfl

theorem runCrawl_inv {fetch : String → Option FetchResult} {seed : String} {maxD : Nat}
    {s' : CrawlState} (h : runCrawl fetch seed maxD = .ok s') :
    Inv fetch seed maxD s' :=
  crawlF_inv fetch seed maxD (maxD + 2) 0 0 (initState seed) s'
    (inv_init fetch seed maxD) (findNode_init_root seed) h

/-! ### Preservation of the no-self-child property -/

theorem regLookup_eq_some {α : Type} {m : List (String × α)} {k : String} {v : α}
    (h : regLookup m k = some v) : ∃ p, p ∈ m ∧ p.1 = k ∧ p.2 = v := by
  unfold regLookup at h
  cases hf : m.find? (fun p => p.1 == k) with
  | none => rw [hf] at h; cases h
  | some p =>
    rw [hf] at h
    refine ⟨p, List.mem_of_find?_eq_some hf, ?_, by simpa using h⟩
    have := List.find?_some hf
    simpa using this

theorem selfInv_init (seed : String) : SelfInv (initState seed) := by
  intro j cid hcid
  exfalso
  have hfj : findNode (initState seed) j =
      if 0 = j then some ⟨seed, none, none⟩ else none := by
    unfold findNode initState
    rw [findEntry_cons]
    rfl
  by_cases h0 : 0 = j
  · subst h0
    simp [lookupNode, hfj] at hcid
  · simp [lookupNode, hfj, h0] at hcid

theorem selfInv_memoStep {fetch : String → Option FetchResult} {seed : String}
    {maxD : Nat} {s : CrawlState} (hinv : Inv fetch seed maxD s)
    (hself : SelfInv s) {pid itemId : Nat}
    (hmemo : regLookup s.pages (lookupNode s pid).url = some itemId) :
    SelfInv (memoStep s pid itemId) := by
  intro j cid hcid
  rw [lookupNode_memoStep_url, lookupNode_memoStep_url]
  rcases memoStep_children_cases s pid itemId j with hc | ⟨hjp, hc⟩
  · rw [hc] at hcid
    exact hself j cid hcid
  · subst hjp
    rw [hc] at hcid
    have h1 := hself itemId cid hcid
    have h2 := (hinv.reg_url _ _ hmemo).2
    rw [h2] at h1
    exact h1

theorem selfInv_freshStep {fetch : String → Option FetchResult} {seed : String}
    {maxD : Nat} {s : CrawlState} (hinv : Inv fetch seed maxD s)
    (hself : SelfInv s) {pid : Nat} (depth : Nat) {res : FetchResult}
    (hpid : (findNode s pid).isSome)
    (hfetch : fetch (lookupNode s pid).url = some res)
    (hnoself : (lookupNode s pid).url ∉ res.links) :
    SelfInv (freshStep seed (logFetch s (lookupNode s pid).url depth) pid res) := by
  have hfind : ∀ j, findNode (freshStep seed (logFetch s (lookupNode s pid).url depth) pid res) j =
      if j = pid
      then ((findNode s pid).or (findEntry (freshCells s seed res) pid)).map
        (fun _ => ⟨(lookupNode s pid).url, some res.title, some (freshKids s seed res)⟩)
      else (findNode s j).or (findEntry (freshCells s seed res) j) :=
    fun j => findNode_freshStep seed (logFetch s (lookupNode s pid).url depth) pid res j
  have hl2 : lookupNode (freshStep seed (logFetch s (lookupNode s pid).url depth) pid res) pid
      = ⟨(lookupNode s pid).url, some res.title, some (freshKids s seed res)⟩ :=
    freshStep_children_self seed res hpid
  intro j cid hcid
  by_cases hjp : j = pid
  · subst hjp
    rw [hl2] at hcid ⊢
    simp only [Option.getD_some] at hcid
    obtain ⟨hge, hlt, hsome⟩ := freshKids_mem s seed res cid hcid
    have hcp : cid ≠ j := by
      intro hc
      subst hc
      exact Nat.lt_irrefl cid (Nat.lt_of_lt_of_le (hinv.ids_lt cid hpid) hge)
    have hnone : findNode s cid = none := by
      cases hm : findNode s cid with
      | none => rfl
      | some d =>
        exact absurd (hinv.ids_lt cid (by rw [hm]; rfl)) (Nat.not_lt.mpr hge)
    have heq2 : findNode (freshStep seed (logFetch s (lookupNode s j).url depth) j res) cid
        = findEntry (freshCells s seed res) cid := by
      rw [hfind cid, if_neg hcp, hnone, Option.none_or]
    obtain ⟨d, hd⟩ := Option.isSome_iff_exists.mp hsome
    rw [lookupNode_eq_of_some (hd ▸ heq2)]
    obtain ⟨p, hp, hp1, hp2⟩ := findEntry_eq_some hd
    obtain ⟨_, _, hurl, _, _⟩ := freshCells_entries s seed res p hp
    rw [hp2] at hurl
    have hlinks : d.url ∈ res.links := by
      unfold freshAnchors at hurl
      exact (List.mem_filter.mp hurl).1
    intro hc
    rw [hc] at hlinks
    exact hnoself hlinks
  · cases hm : findNode s j with
    | none =>
      exfalso
      have heq2 : findNode (freshStep seed (logFetch s (lookupNode s pid).url depth) pid res) j
          = findEntry (freshCells s seed res) j := by
        rw [hfind j, if_neg hjp, hm, Option.none_or]
      cases hfe : findEntry (freshCells s seed res) j with
      | none =>
        rw [lookupNode_eq_getD (hfe ▸ heq2)] at hcid
        simp at hcid
      | some d =>
        rw [lookupNode_eq_of_some (hfe ▸ heq2)] at hcid
        obtain ⟨p, hp, hp1, hp2⟩ := findEntry_eq_some hfe
        obtain ⟨_, _, _, _, hch⟩ := freshCells_entries s seed res p hp
        rw [hp2] at hch
        rw [hch] at hcid
        simp at hcid
    | some dj =>
      have heq : findNode (freshStep seed (logFetch s (lookupNode s pid).url depth) pid res) j
          = findNode s j := by
        rw [hfind j, if_neg hjp, hm]
        rfl
      rw [lookupNode_eq_of_findNode_eq heq] at hcid ⊢
      have hne := hself j cid hcid
      obtain ⟨_, _, hcs⟩ := hinv.child_ok j cid hcid
      by_cases hcp : cid = pid
      · subst hcp
        rw [hl2]
        exact hne
      · have heqc : findNode (freshStep seed (logFetch s (lookupNode s pid).url depth) pid res) cid
            = findNode s cid := by
          rw [hfind cid, if_neg hcp]
          obtain ⟨d, hd⟩ := Option.isSome_iff_exists.mp hcs
          rw [hd]
          rfl
        rw [lookupNode_eq_of_findNode_eq heqc]
        exact hne

theorem goKids_selfInv {fetch : String → Option FetchResult} {seed : String} {maxD : Nat}
    {f : Nat → CrawlState → Except CrawlErr CrawlState}
    (hf : ∀ k t t', Inv fetch seed maxD t → SelfInv t → (findNode t k).isSome →
      f k t = .ok t' → Inv fetch seed maxD t' ∧ SelfInv t')
    (hext : ∀ k t t', f k t = .ok t' → Ext t t') :
    ∀ (ks : List Nat) (s s' : CrawlState), Inv fetch seed maxD s → SelfInv s →
      (∀ k ∈ ks, (findNode s k).isSome) →
      goKids f ks s = .ok s' → Inv fetch seed maxD s' ∧ SelfInv s' := by
  intro ks
  induction ks with
  | nil =>
    intro s s' hinv hself hp h
    rw [goKids_nil] at h
    cases h
    exact ⟨hinv, hself⟩
  | cons k ks ih =>
    intro s s' hinv hself hp h
    cases hk : f k s with
    | error e => rw [goKids_cons_err ks hk] at h; cases h
    | ok s1 =>
      rw [goKids_cons_ok ks hk] at h
      obtain ⟨hinv1, hself1⟩ := hf k s s1 hinv hself (hp k (List.mem_cons_self k ks)) hk
      have hext1 := hext k s s1 hk
      exact ih s1 s' hinv1 hself1
        (fun k' hk' => hext1.2.2.2 k' (hp k' (List.mem_cons_of_mem k hk'))) h

theorem crawlAux_selfInv {fetch : String → Option FetchResult} {seed : String} {maxD : Nat}
    {recur : Nat → Nat → CrawlState → Except CrawlErr CrawlState}
    (hnolinks : ∀ u r, fetch u = some r → u ∉ r.links)
    (hrec : ∀ k d t t', Inv fetch seed maxD t → SelfInv t → (findNode t k).isSome →
      recur k d t = .ok t' → Inv fetch seed maxD t' ∧ SelfInv t')
    (hrecext : ∀ k d t t', recur k d t = .ok t' → Ext t t') :
    ∀ (pid depth : Nat) (s s' : CrawlState), Inv fetch seed maxD s → SelfInv s →
      (findNode s pid).isSome →
      crawlAux fetch seed maxD recur pid depth s = .ok s' →
      Inv fetch seed maxD s' ∧ SelfInv s' := by
  intro pid depth s s' hinv hself hpid h
  by_cases hd : depth > maxD
  · rw [crawlAux_cutoff fetch seed recur pid s hd] at h
    cases h
    exact ⟨hinv, hself⟩
  · cases hreg : regLookup s.pages (lookupNode s pid).url with
    | some itemId =>
      rw [crawlAux_memo fetch seed recur hd hreg] at h
      cases h
      exact ⟨inv_memoStep hinv pid itemId, selfInv_memoStep hinv hself hreg⟩
    | none =>
      cases hfe : fetch (lookupNode s pid).url with
      | none => rw [crawlAux_navFail seed recur hd hreg hfe] at h; cases h
      | some res =>
        rw [crawlAux_fresh seed recur hd hreg hfe] at h
        have hinv2 := inv_freshStep hinv hpid hreg hfe (Nat.le_of_not_lt hd)
        have hself2 := selfInv_freshStep hinv hself depth hpid hfe (hnolinks _ _ hfe)
        have hkids : ∀ k ∈ (lookupNode
            (freshStep seed (logFetch s (lookupNode s pid).url depth) pid res)
              pid).children.getD [],
            (findNode (freshStep seed (logFetch s (lookupNode s pid).url depth) pid res)
              k).isSome := by
          intro k hk
          exact (hinv2.child_ok pid k hk).2.2
        exact goKids_selfInv (fun k t t' ha hb hc hd2 => hrec k (depth + 1) t t' ha hb hc hd2)
          (fun k t t' hc => hrecext k (depth + 1) t t' hc) _ _ _ hinv2 hself2 hkids h

theorem crawlF_selfInv (fetch : String → Option FetchResult) (seed : String) (maxD : Nat)
    (hnolinks : ∀ u r, fetch u = some r → u ∉ r.links) :
    ∀ (fuel pid depth : Nat) (s s' : CrawlState), Inv fetch seed maxD s → SelfInv s →
      (findNode s pid).isSome →
      crawlF fetch seed maxD fuel pid depth s = .ok s' →
      Inv fetch seed maxD s' ∧ SelfInv s' := by
  intro fuel
  induction fuel with
  | zero =>
    intro pid depth s s' _ _ _ h
    rw [crawlF_zero] at h
    cases h
  | succ fuel ih =>
    intro pid depth s s' hinv hself hpid h
    rw [crawlF_succ] at h
    exact crawlAux_selfInv hnolinks (fun k d t t' => ih k d t t')
      (fun k d t t' => crawlF_ext fetch seed maxD fuel k d t t') pid depth s s' hinv hself hpid h

theorem runCrawl_selfInv {fetch : String → Option FetchResult} {seed : String}
    {maxD : Nat} {s' : CrawlState}
    (hnolinks : ∀ u r, fetch u = some r → u ∉ r.links)
    (h : runCrawl fetch seed maxD = .ok s') : SelfInv s' :=
  (crawlF_selfInv fetch seed maxD hnolinks (maxD + 2) 0 0 (initState seed) s'
    (inv_init fetch seed maxD) (selfInv_init seed) (findNode_init_root seed) h).2

/-! ### Exact value written by the memoized backfill -/

theorem backfillChild_title_written {t : CrawlState} {c : Nat}
    (h : (findNode t c).isSome) :
    (lookupNode (backfillChild t c) c).title =
      some (match regLookup t.pages ((lookupNode t c).url) with
        | some rid => (lookupNode t rid).title.getD ""
        | none => "") := by
  unfold backfillChild
  rw [lookupNode_setNode_self _ h]

theorem bfc_pres {s t : CrawlState}
    (hreg : ∀ u id, regLookup s.pages u = some id → (lookupNode s id).url = u)
    (pres : BackfillPres s t) (c : Nat) : BackfillPres s (backfillChild t c) := by
  obtain ⟨p1, p2, p3, p4⟩ := pres
  refine ⟨?_, ?_, ?_, ?_⟩
  · rw [backfillChild_pages]
    exact p1
  · intro j
    rw [findNode_backfillChild_isSome]
    exact p2 j
  · intro j
    rw [lookupNode_backfillChild_url]
    exact p3 j
  · intro u id hu
    by_cases hic : id = c
    · subst hic
      cases hm : findNode t id with
      | none =>
        have hkeep : lookupNode (backfillChild t id) id = lookupNode t id := by
          unfold backfillChild
          exact lookupNode_setNode_dangling _ _ hm
        rw [hkeep]
        exact p4 u id hu
      | some d =>
        rw [backfillChild_title_written (by rw [hm]; rfl)]
        rw [Option.getD_some, p1, p3 id, hreg u id hu, hu]
        exact p4 u id hu
    · rw [lookupNode_backfillChild_of_ne t hic]
      exact p4 u id hu

theorem bfc_sets {s t : CrawlState}
    (_hreg : ∀ u id, regLookup s.pages u = some id → (lookupNode s id).url = u)
    (pres : BackfillPres s t) (c : Nat) (hcs : (findNode s c).isSome) :
    (lookupNode (backfillChild t c) c).title = some (backTitle s c) := by
  have hct : (findNode t c).isSome := by
    rw [pres.2.1 c]
    exact hcs
  rw [backfillChild_title_written hct]
  congr 1
  rw [pres.1, pres.2.2.1 c]
  unfold backTitle
  cases hru : regLookup s.pages ((lookupNode s c).url) with
  | none => rfl
  | some rid => exact pres.2.2.2 _ rid hru

theorem bfc_keep {s t : CrawlState}
    (hreg : ∀ u id, regLookup s.pages u = some id → (lookupNode s id).url = u)
    (pres : BackfillPres s t) {j : Nat} (c : Nat)
    (hj : (lookupNode t j).title = some (backTitle s j)) :
    (lookupNode (backfillChild t c) j).title = some (backTitle s j) := by
  by_cases hjc : j = c
  · subst hjc
    cases hm : findNode t j with
    | none =>
      have hkeep : lookupNode (backfillChild t j) j = lookupNode t j := by
        unfold backfillChild
        exact lookupNode_setNode_dangling _ _ hm
      rw [hkeep]
      exact hj
    | some d =>
      have hcs : (findNode s j).isSome := by
        rw [← pres.2.1 j, hm]
        rfl
      exact bfc_sets hreg pres j hcs
  · rw [lookupNode_backfillChild_of_ne t hjc]
    exact hj

theorem bft_pres {s : CrawlState}
    (hreg : ∀ u id, regLookup s.pages u = some id → (lookupNode s id).url = u) :
    ∀ (cs : List Nat) (t : CrawlState), BackfillPres s t →
      BackfillPres s (backfillTitles t cs) := by
  intro cs
  induction cs with
  | nil => intro t pres; exact pres
  | cons c cs ih =>
    intro t pres
    have hstep : backfillTitles t (c :: cs) = backfillTitles (backfillChild t c) cs := rfl
    rw [hstep]
    exact ih (backfillChild t c) (bfc_pres hreg pres c)

theorem bft_keep {s : CrawlState}
    (hreg : ∀ u id, regLookup s.pages u = some id → (lookupNode s id).url = u) {j : Nat} :
    ∀ (cs : List Nat) (t : CrawlState), BackfillPres s t →
      (lookupNode t j).title = some (backTitle s j) →
      (lookupNode (backfillTitles t cs) j).title = some (backTitle s j) := by
  intro cs
  induction cs with
  | nil => intro t _ hj; exact hj
  | cons c cs ih =>
    intro t pres hj
    have hstep : backfillTitles t (c :: cs) = backfillTitles (backfillChild t c) cs := rfl
    rw [hstep]
    exact ih (backfillChild t c) (bfc_pres hreg pres c) (bfc_keep hreg pres c hj)

theorem bft_spec {s : CrawlState}
    (hreg : ∀ u id, regLookup s.pages u = some id → (lookupNode s id).url = u) :
    ∀ (cs : List Nat) (t : CrawlState), BackfillPres s t →
      (∀ c ∈ cs, (findNode s c).isSome) →
      ∀ c ∈ cs, (lookupNode (backfillTitles t cs) c).title = some (backTitle s c) := by
  intro cs
  induction cs with
  | nil => intro t _ _ c hc; cases hc
  | cons c cs ih =>
    intro t pres hks c' hc'
    have hstep : backfillTitles t (c :: cs) = backfillTitles (backfillChild t c) cs := rfl
    have pres1 := bfc_pres hreg pres c
    rcases List.mem_cons.mp hc' with h | h
    · subst h
      rw [hstep]
      exact bft_keep hreg cs (backfillChild t c') pres1
        (bfc_sets hreg pres c' (hks c' (List.mem_cons_self c' cs)))
    · rw [hstep]
      exact ih (backfillChild t c) pres1
        (fun x hx => hks x (List.mem_cons_of_mem c hx)) c' h

theorem backfillPres_memoSet {s : CrawlState} {pid itemId : Nat}
    (hreg : ∀ u id, regLookup s.pages u = some id → (lookupNode s id).url = u)
    (hlook : regLookup s.pages ((lookupNode s pid).url) = some itemId) :
    BackfillPres s (setNode s pid
      ⟨(lookupNode s pid).url, (lookupNode s itemId).title,
        (lookupNode s itemId).children⟩) := by
  refine ⟨rfl, ?_, ?_, ?_⟩
  · intro j
    exact findNode_setNode_isSome s pid _ j
  · intro j
    by_cases hj : j = pid
    · subst hj
      cases hm : findNode s j with
      | none => rw [lookupNode_setNode_dangling _ _ hm]
      | some d => rw [lookupNode_setNode_self _ (by rw [hm]; rfl)]
    · rw [lookupNode_setNode_of_ne _ _ hj]
  · intro u id hu
    by_cases hj : id = pid
    · subst hj
      cases hm : findNode s id with
      | none =>
        rw [lookupNode_setNode_dangling _ _ hm]
      | some d =>
        rw [lookupNode_setNode_self _ (by rw [hm]; rfl)]
        have hupid : (lookupNode s id).url = u := hreg u id hu
        rw [hupid] at hlook
        rw [hu] at hlook
        injection hlook with hii
        rw [← hii]
    · rw [lookupNode_setNode_of_ne _ _ hj]

/-! ### Auxiliary facts about the example fetchers -/

theorem fetchScen_no_self : ∀ u r, fetchScen u = some r → u ∉ r.links := by
  intro u r h
  unfold fetchScen at h
  by_cases h1 : u = "a"
  · rw [if_pos h1] at h
    injection h with h2
    rw [← h2, h1]
    decide
  · rw [if_neg h1] at h
    by_cases h2 : u = "b"
    · rw [if_pos h2] at h
      injection h with h3
      rw [← h3, h2]
      decide
    · rw [if_neg h2] at h
      by_cases h3 : u = "c"
      · rw [if_pos h3] at h
        injection h with h4
        rw [← h4, h3]
        decide
      · rw [if_neg h3] at h
        cases h

/-! ### The claims -/

/-- C1: for every URL `u`, the Page Fetcher is invoked for `u` at most
once per run — the fetch log of a completed run has no duplicate URL —
because `crawl` consults `crawledPages` before fetching and registers
the fetched URL during the same visit (second conjunct: every fetched
URL ends up a key of the Visited Registry). -/
theorem c1_at_most_one_fetch (fetch : String → Option FetchResult) (seed : String)
    (maxD : Nat) (s' : CrawlState) (hrun : runCrawl fetch seed maxD = .ok s') :
    (s'.fetchLog.map (·.1)).Nodup ∧
      ∀ u ∈ s'.fetchLog.map (·.1), (regLookup s'.pages u).isSome :=
  ⟨(runCrawl_inv hrun).log_nodup, (runCrawl_inv hrun).log_reg⟩

/-- Witness for C1, at the spec's scenario fetcher. -/
theorem c1_witness :
    (scenFinal.fetchLog.map (·.1)).Nodup ∧ (regLookup scenFinal.pages "b").isSome :=
  ⟨(c1_at_most_one_fetch fetchScen "a" 1 scenFinal (by decide)).1,
   (c1_at_most_one_fetch fetchScen "a" 1 scenFinal (by decide)).2 "b" (by decide)⟩

/-- C2 counterexample: with `fetchWide` and max depth 2 the run succeeds
and the tree has a PageNode at depth 3 = D+1 — the cell of `d`, aliased
into the memoized copy of `b` under `c` — with populated title `"D"` and
present (crawled) children, refuting "every PageNode at depth D+1 is an
unexplored stub holding only its url". -/
theorem c2_counterexample :
    runCrawl fetchWide "a" 2 = .ok wideFinal ∧
      atDepth wideFinal 0 3 = [3] ∧
      (lookupNode wideFinal 3).title = some "D" ∧
      (lookupNode wideFinal 3).children = some [] := by
  decide

/-- C2 (amended): the depth cutoff itself is exact — a `crawl` call past
the maximum depth returns the state unchanged (no fetch, no registry
write, no node modification) — and every fetch of a completed run
happened at depth ≤ D.  A node *object* at depth D+1 can nevertheless
show a populated title or children when a memoized visit at depth ≤ D
aliased or backfilled it (see the counterexample), so the
unexplored-stub phrasing holds for the cutoff's effect, not for every
tree position. -/
theorem c2_depth_bound_amended :
    (∀ (fetch : String → Option FetchResult) (seed : String)
        (maxD fuel pid depth : Nat) (s : CrawlState), depth > maxD →
        crawlF fetch seed maxD (fuel + 1) pid depth s = .ok s) ∧
    (∀ (fetch : String → Option FetchResult) (seed : String) (maxD : Nat)
        (s' : CrawlState), runCrawl fetch seed maxD = .ok s' →
        ∀ e ∈ s'.fetchLog, e.2 ≤ maxD) := by
  constructor
  · intro fetch seed maxD fuel pid depth s hd
    rw [crawlF_succ]
    exact crawlAux_cutoff fetch seed _ pid s hd
  · intro fetch seed maxD s' hrun
    exact (runCrawl_inv hrun).log_depth

/-- Witness for the amended C2. -/
theorem c2_witness :
    crawlF fetchWide "a" 2 1 0 3 (initState "a") = .ok (initState "a") ∧
      (("d", 2) : String × Nat).2 ≤ 2 :=
  ⟨c2_depth_bound_amended.1 fetchWide "a" 2 0 0 3 (initState "a") (by decide),
   c2_depth_bound_amended.2 fetchWide "a" 2 wideFinal (by decide) ("d", 2) (by decide)⟩

/-- C3: when `crawl(node, depth)` finds `node.url` in the Visited
Registry within the depth bound, the visit is exactly `memoStep`, for
every fetcher and every remaining fuel (so nothing is fetched and no
recursive `crawl` happens): the entry's `title`/`children` are assigned
onto the node, only the direct children's titles are backfilled, the
registries and the fetch log are untouched, children lists of all other
nodes are unchanged, and nodes that are neither the revisited node nor
one of the copied children are not modified at all — the memoized branch
exposes exactly one additional level and never re-descends. -/
theorem c3_memoized_branch (fetch : String → Option FetchResult) (seed : String)
    (maxD : Nat) {pid depth : Nat} {s : CrawlState} {itemId : Nat}
    (hdepth : ¬depth > maxD)
    (hmemo : regLookup s.pages (lookupNode s pid).url = some itemId)
    (hpid : (findNode s pid).isSome) :
    (∀ fuel, crawlF fetch seed maxD (fuel + 1) pid depth s = .ok (memoStep s pid itemId)) ∧
    (memoStep s pid itemId).pages = s.pages ∧
    (memoStep s pid itemId).cookies = s.cookies ∧
    (memoStep s pid itemId).iframes = s.iframes ∧
    (memoStep s pid itemId).fetchLog = s.fetchLog ∧
    (lookupNode (memoStep s pid itemId) pid).children = (lookupNode s itemId).children ∧
    (∀ j, j ≠ pid →
      (lookupNode (memoStep s pid itemId) j).children = (lookupNode s j).children) ∧
    (∀ j, j ≠ pid → j ∉ (lookupNode s itemId).children.getD [] →
      lookupNode (memoStep s pid itemId) j = lookupNode s j) := by
  refine ⟨?_, memoStep_pages s pid itemId, memoStep_cookies s pid itemId,
    memoStep_iframes s pid itemId, memoStep_fetchLog s pid itemId,
    memoStep_children_self itemId hpid,
    fun j hj => memoStep_children_of_ne s itemId hj,
    fun j hj hjm => lookupNode_eq_of_findNode_eq (findNode_memoStep_untouched hj hjm)⟩
  intro fuel
  rw [crawlF_succ]
  exact crawlAux_memo fetch seed _ hdepth hmemo

/-- Witness for C3: node 2 of `memoDemo` revisits the registered URL
`"x"`; even a fetcher that always fails is never consulted. -/
theorem c3_witness :
    crawlF (fun _ => none) "s" 1 1 2 1 memoDemo = .ok (memoStep memoDemo 2 0) ∧
      (memoStep memoDemo 2 0).fetchLog = memoDemo.fetchLog :=
  ⟨(@c3_memoized_branch (fun _ => none) "s" 1 2 1 memoDemo 0
      (by decide) (by decide) (by decide)).1 0,
   (@c3_memoized_branch (fun _ => none) "s" 1 2 1 memoDemo 0
      (by decide) (by decide) (by decide)).2.2.2.2.1⟩

/-- C4 counterexample: in the completed `fetchWide` run the two distinct
node objects for URL `b` (cells 1 and 4, tree positions a→b and a→c→b)
hold the *identical* children list `[3]`: both alias the single cell of
`d`, which consequently occurs at depth 2 and depth 3 of the tree at
once — children were assigned by reference, not copied, refuting "no two
positions in the tree alias the same child objects". -/
theorem c4_counterexample :
    runCrawl fetchWide "a" 2 = .ok wideFinal ∧
      (lookupNode wideFinal 1).url = "b" ∧ (lookupNode wideFinal 4).url = "b" ∧
      (1 : Nat) ≠ 4 ∧
      (lookupNode wideFinal 1).children = some [3] ∧
      (lookupNode wideFinal 4).children = some [3] ∧
      atDepth wideFinal 0 2 = [3, 4] ∧ atDepth wideFinal 0 3 = [3] := by
  decide

/-- C4 (amended): each occurrence of an already-visited URL is a
distinct node object, but its `children` are assigned *by reference*
from the registry entry: after the memoized branch the revisited node
and the registry entry hold the identical list of child cell ids, so
different tree positions alias the same child objects and a mutation
through one occurrence is visible through the others. -/
theorem c4_children_aliased (s : CrawlState) (pid itemId : Nat)
    (hpid : (findNode s pid).isSome) :
    (lookupNode (memoStep s pid itemId) pid).children =
      (lookupNode s itemId).children ∧
    (lookupNode (memoStep s pid itemId) itemId).children =
      (lookupNode s itemId).children := by
  refine ⟨memoStep_children_self itemId hpid, ?_⟩
  by_cases hip : itemId = pid
  · subst hip
    exact memoStep_children_self itemId hpid
  · exact memoStep_children_of_ne s itemId hip

/-- Witness for the amended C4 at `memoDemo`. -/
theorem c4_witness :
    (lookupNode (memoStep memoDemo 2 0) 2).children = (lookupNode memoDemo 0).children ∧
    (lookupNode (memoStep memoDemo 2 0) 0).children = (lookupNode memoDemo 0).children :=
  c4_children_aliased memoDemo 2 0 (by decide)

/-- C5: first-seen wins for the cookie and iframe registries.  (i)/(ii):
a record present before any (sub)crawl is still present, unchanged,
afterwards — later sightings never overwrite it, whatever their
attribute values; (iii): in a completed run each recorded `firstFound`
is the URL of the first fetched page, in traversal order as recorded by
the fetch log, whose fetch observed that cookie name / iframe source. -/
theorem c5_first_seen_wins (fetch : String → Option FetchResult) (seed : String)
    (maxD : Nat) :
    (∀ (fuel pid depth : Nat) (s s' : CrawlState) (name : String) (rec : CookieRecord),
      regLookup s.cookies name = some rec →
      crawlF fetch seed maxD fuel pid depth s = .ok s' →
      regLookup s'.cookies name = some rec) ∧
    (∀ (fuel pid depth : Nat) (s s' : CrawlState) (src : String) (rec : IframeRecord),
      regLookup s.iframes src = some rec →
      crawlF fetch seed maxD fuel pid depth s = .ok s' →
      regLookup s'.iframes src = some rec) ∧
    (∀ (s' : CrawlState), runCrawl fetch seed maxD = .ok s' →
      (∀ (name : String) (rec : CookieRecord), regLookup s'.cookies name = some rec →
        (s'.fetchLog.find? (fun e => observesCookie fetch name e.1)).map (·.1) =
          some rec.firstFound) ∧
      (∀ (src : String) (rec : IframeRecord), regLookup s'.iframes src = some rec →
        (s'.fetchLog.find? (fun e => observesIframe fetch src e.1)).map (·.1) =
          some rec.firstFound)) := by
  refine ⟨?_, ?_, ?_⟩
  · intro fuel pid depth s s' name rec hc hrun
    exact (crawlF_ext fetch seed maxD fuel pid depth s s' hrun).2.1 name rec hc
  · intro fuel pid depth s s' src rec hc hrun
    exact (crawlF_ext fetch seed maxD fuel pid depth s s' hrun).2.2.1 src rec hc
  · intro s' hrun
    constructor
    · intro name rec hc
      have h := (runCrawl_inv hrun).cookie_first name
      rw [hc] at h
      exact h.symm
    · intro src rec hc
      have h := (runCrawl_inv hrun).iframe_first src
      rw [hc] at h
      exact h.symm

/-- Witness for C5: the cookie `sess` and the iframe `frame1`, observed
on both pages of the `fetchCk` run, record the first page `"a"`. -/
theorem c5_witness :
    ((ckFinal.fetchLog.find? (fun e => observesCookie fetchCk "sess" e.1)).map (·.1) =
      some "a") ∧
    ((ckFinal.fetchLog.find? (fun e => observesIframe fetchCk "frame1" e.1)).map (·.1) =
      some "a") :=
  ⟨((c5_first_seen_wins fetchCk "a" 1).2.2 ckFinal (by decide)).1 "sess"
      ⟨"sess", "va", "a"⟩ (by decide),
   ((c5_first_seen_wins fetchCk "a" 1).2.2 ckFinal (by decide)).2 "frame1"
      ⟨"frame1", "a"⟩ (by decide)⟩

/-- C6 counterexample: in the scenario run (`fetchScen`, max depth 1)
the child of `c` for the already-visited URL `b` is node 3, and its
title is absent — not `b`'s title `"B"` as the claim's expected tree
states.  The depth cutoff at depth 2 returns before the memoized branch
could run, and the fresh branch creates bare `{url}` stubs without
backfilling their titles. -/
theorem c6_counterexample :
    runCrawl fetchScen "a" 1 = .ok scenFinal ∧
      (lookupNode scenFinal 2).url = "c" ∧
      (lookupNode scenFinal 2).children = some [3] ∧
      (lookupNode scenFinal 3).url = "b" ∧
      (lookupNode scenFinal 3).title = none ∧
      (lookupNode scenFinal 3).title ≠ some "B" := by
  decide

/-- C6 (amended): the scenario's resulting state is exactly `scenFinal`:
root `a` (title `"A"`, children `b` and `c` in order), `b` with title
`"B"` and empty children, `c` with title `"C"` and one child — a bare
stub `{url := "b"}` with *no* title and no children field. -/
theorem c6_scenario_amended : runCrawl fetchScen "a" 1 = .ok scenFinal := by
  decide

/-- C7: in every completed run the seed URL never appears as the URL of
a child node anywhere in the heap (the orchestrator filters the seed out
of every fetched link list), and — under the claim's assumption that the
fetcher never reports a page's own URL among its links — no node has a
child carrying its own URL. -/
theorem c7_no_self_loop (fetch : String → Option FetchResult) (seed : String)
    (maxD : Nat) (s' : CrawlState) (hrun : runCrawl fetch seed maxD = .ok s') :
    (∀ j, ∀ cid ∈ (lookupNode s' j).children.getD [],
      (lookupNode s' cid).url ≠ seed) ∧
    ((∀ u r, fetch u = some r → u ∉ r.links) →
      ∀ j, ∀ cid ∈ (lookupNode s' j).children.getD [],
        (lookupNode s' cid).url ≠ (lookupNode s' j).url) := by
  constructor
  · intro j cid hcid
    have hinv := runCrawl_inv hrun
    obtain ⟨h1, _, h3⟩ := hinv.child_ok j cid hcid
    exact hinv.nonroot_url cid (by omega) h3
  · intro hnolinks j cid hcid
    exact runCrawl_selfInv hnolinks hrun j cid hcid

/-- Witness for C7: node 3 (`b` under `c` in the scenario run) carries
neither the seed `"a"` nor its parent's URL `"c"`. -/
theorem c7_witness :
    (lookupNode scenFinal 3).url ≠ "a" ∧
    (lookupNode scenFinal 3).url ≠ (lookupNode scenFinal 2).url :=
  ⟨(c7_no_self_loop fetchScen "a" 1 scenFinal (by decide)).1 2 3 (by decide),
   (c7_no_self_loop fetchScen "a" 1 scenFinal (by decide)).2 fetchScen_no_self
      2 3 (by decide)⟩

/-- C8: a navigation failure is not caught.  (i) at the failing node the
whole `crawl` body returns the error immediately — nothing is retried
and no degraded fetch-failed leaf is produced, since the error result
carries no state; (ii) the child loop aborts on the first erroring
child, propagating the same error; (iii) the same at the `crawl`
recursion level, for any remaining fuel. -/
theorem c8_nav_error_propagates (fetch : String → Option FetchResult) (seed : String)
    (maxD : Nat) :
    (∀ (recur : Nat → Nat → CrawlState → Except CrawlErr CrawlState)
        (pid depth : Nat) (s : CrawlState), ¬depth > maxD →
        regLookup s.pages (lookupNode s pid).url = none →
        fetch (lookupNode s pid).url = none →
        crawlAux fetch seed maxD recur pid depth s =
          .error (.nav (lookupNode s pid).url)) ∧
    (∀ (f : Nat → CrawlState → Except CrawlErr CrawlState) (k : Nat) (ks : List Nat)
        (s : CrawlState) (e : CrawlErr), f k s = .error e →
        goKids f (k :: ks) s = .error e) ∧
    (∀ (fuel pid depth : Nat) (s : CrawlState), ¬depth > maxD →
        regLookup s.pages (lookupNode s pid).url = none →
        fetch (lookupNode s pid).url = none →
        crawlF fetch seed maxD (fuel + 1) pid depth s =
          .error (.nav (lookupNode s pid).url)) := by
  refine ⟨?_, ?_, ?_⟩
  · intro recur pid depth s hd hreg hfe
    exact crawlAux_navFail seed recur hd hreg hfe
  · intro f k ks s e hf
    exact goKids_cons_err ks hf
  · intro fuel pid depth s hd hreg hfe
    rw [crawlF_succ]
    exact crawlAux_navFail seed _ hd hreg hfe

/-- Witness for C8: navigating to `"b"` with `fetchFail` aborts the
crawl of a node for `"b"`, and the child loop propagates the error. -/
theorem c8_witness :
    crawlF fetchFail "a" 2 1 0 0 (initState "b") = .error (.nav "b") ∧
    goKids errF [5] (initState "a") = .error (.nav "b") :=
  ⟨(c8_nav_error_propagates fetchFail "a" 2).2.2 0 0 0 (initState "b")
      (by decide) (by decide) (by decide),
   (c8_nav_error_propagates fetchFail "a" 2).2.1 errF 5 [] (initState "a")
      (.nav "b") rfl⟩

/-- C9: for a fetcher that succeeds on every URL, `crawl` terminates:
fuel `maxDepth + 2 - depth` always suffices because each recursive call
moves to depth + 1 and the call at depth > maxDepth returns at once, so
the recursion depth is bounded by maxDepth + 1; in particular the whole
run returns a final state. -/
theorem c9_crawl_terminates (fetch : String → Option FetchResult) (seed : String)
    (maxD : Nat) (htotal : ∀ u, (fetch u).isSome) :
    (∀ (fuel depth pid : Nat) (s : CrawlState), maxD + 2 ≤ fuel + depth → 1 ≤ fuel →
      ∃ s', crawlF fetch seed maxD fuel pid depth s = .ok s') ∧
    (∃ s', runCrawl fetch seed maxD = .ok s') := by
  have main : ∀ (fuel depth pid : Nat) (s : CrawlState),
      maxD + 2 ≤ fuel + depth → 1 ≤ fuel →
      ∃ s', crawlF fetch seed maxD fuel pid depth s = .ok s' := by
    intro fuel
    induction fuel with
    | zero =>
      intro depth pid s h1 h2
      exact absurd h2 (by omega)
    | succ fuel ih =>
      intro depth pid s h1 _
      rw [crawlF_succ]
      by_cases hd : depth > maxD
      · exact ⟨s, crawlAux_cutoff fetch seed _ pid s hd⟩
      · cases hreg : regLookup s.pages (lookupNode s pid).url with
        | some itemId =>
          exact ⟨memoStep s pid itemId, crawlAux_memo fetch seed _ hd hreg⟩
        | none =>
          obtain ⟨res, hres⟩ := Option.isSome_iff_exists.mp (htotal (lookupNode s pid).url)
          have hfuel2 : 1 ≤ fuel := by omega
          have hgo : ∀ (ks : List Nat) (t : CrawlState),
              ∃ t', goKids (fun k t0 => crawlF fetch seed maxD fuel k (depth + 1) t0)
                ks t = .ok t' := by
            intro ks
            induction ks with
            | nil => intro t; exact ⟨t, rfl⟩
            | cons k ks ihk =>
              intro t
              obtain ⟨t1, ht1⟩ := ih (depth + 1) k t (by omega) hfuel2
              obtain ⟨t2, ht2⟩ := ihk t1
              refine ⟨t2, ?_⟩
              rw [@goKids_cons_ok (fun k0 t0 => crawlF fetch seed maxD fuel k0 (depth + 1) t0)
                k t t1 ks ht1]
              exact ht2
          obtain ⟨t', ht'⟩ := hgo
            ((lookupNode (freshStep seed (logFetch s (lookupNode s pid).url depth)
              pid res) pid).children.getD [])
            (freshStep seed (logFetch s (lookupNode s pid).url depth) pid res)
          exact ⟨t', by rw [crawlAux_fresh seed _ hd hreg hres]; exact ht'⟩
  exact ⟨main, main (maxD + 2) 0 0 (initState seed) (by omega) (by omega)⟩

/-- Witness for C9: the total fetcher's run returns a state. -/
theorem c9_witness : (runCrawl fetchTotal "a" 1).toOption.isSome = true := by
  obtain ⟨s', hs'⟩ := (c9_crawl_terminates fetchTotal "a" 1 (fun u => rfl)).2
  rw [hs']
  rfl

/-- C10: in the memoized branch every child in the copied children list
has its title unconditionally reassigned: it becomes `some` of the
registry entry's title when the child's url is a key of `crawledPages`,
and `some ""` otherwise (`backTitle` is exactly that value) — never left
absent or unchanged.  Hypotheses: each `crawledPages` entry's cell
carries the key URL (true in every run, by `Inv.reg_url`), the
memoized-branch condition, and the children are allocated cells. -/
theorem c10_backfill_overwrites (s : CrawlState) (pid itemId : Nat)
    (hreg : ∀ p ∈ s.pages, (lookupNode s p.2).url = p.1)
    (hlook : regLookup s.pages ((lookupNode s pid).url) = some itemId)
    (hkids : ∀ cid ∈ (lookupNode s itemId).children.getD [],
      (findNode s cid).isSome) :
    ∀ cid ∈ (lookupNode s itemId).children.getD [],
      (lookupNode (memoStep s pid itemId) cid).title = some (backTitle s cid) := by
  have hreg' : ∀ u id, regLookup s.pages u = some id → (lookupNode s id).url = u := by
    intro u id hu
    obtain ⟨p, hp, h1, h2⟩ := regLookup_eq_some hu
    rw [← h1, ← h2]
    exact hreg p hp
  have hmemo : memoStep s pid itemId =
      backfillTitles (setNode s pid
        ⟨(lookupNode s pid).url, (lookupNode s itemId).title,
          (lookupNode s itemId).children⟩)
        ((lookupNode s itemId).children.getD []) := rfl
  rw [hmemo]
  exact bft_spec hreg' _ _ (backfillPres_memoSet hreg' hlook) hkids

/-- Witness for C10: the single child (node 1, unregistered url `"y"`)
of the revisited entry in `memoDemo` ends with title `some ""`. -/
theorem c10_witness :
    (lookupNode (memoStep memoDemo 2 0) 1).title = some (backTitle memoDemo 1) :=
  c10_backfill_overwrites memoDemo 2 0 (by decide) (by decide) (by decide) 1 (by decide)

end Crawler
